import Mathlib

/-!
# Verification of the calendar grid / projection core

Shallow embedding of the grid & date engine
(`calendar-production/scripts/week_calculator.py`,
`calendar-production/scripts/calendar_generator.py`) and of the geographic
projection engine (`calendar-production/scripts/world_map_generator.py`).

Dates are embedded as `(year, month, day)` triples, mirroring Python
`datetime.date` objects: comparison of `datetime.date` objects is
lexicographic on the `(year, month, day)` triple, `date.toordinal()` is the
proleptic Gregorian ordinal (0001-01-01 is day 1), and
`date + timedelta(days = 1)` moves to the next valid calendar date.
Floating-point quantities of the projection engine are embedded as exact
rationals; the claims we settle about them only involve tolerances that are
many orders of magnitude wider than double-precision rounding error.
-/

namespace Cal

/-- A calendar date, mirroring Python `datetime.date` (a `(year, month, day)`
triple). -/
structure Date where
  y : ℕ
  m : ℕ
  d : ℕ
  deriving DecidableEq, Repr

/-- Gregorian leap-year test (`calendar.isleap`). -/
def isLeap (y : ℕ) : Bool :=
  y % 4 = 0 && (y % 100 ≠ 0 || y % 400 = 0)

/-- Number of days of month `m` of year `y` (`calendar.monthrange(y, m)[1]`,
also the `_DAYS_IN_MONTH` table of `datetime`). -/
def daysInMonth (y m : ℕ) : ℕ :=
  match m with
  | 1 => 31
  | 2 => if isLeap y then 29 else 28
  | 3 => 31
  | 4 => 30
  | 5 => 31
  | 6 => 30
  | 7 => 31
  | 8 => 31
  | 9 => 30
  | 10 => 31
  | 11 => 30
  | 12 => 31
  | _ => 0

/-- Days of year `y` that precede month `m` (`datetime._days_before_month`). -/
def daysBeforeMonth (y m : ℕ) : ℕ :=
  let l : ℕ := if isLeap y then 1 else 0
  match m with
  | 1 => 0
  | 2 => 31
  | 3 => 59 + l
  | 4 => 90 + l
  | 5 => 120 + l
  | 6 => 151 + l
  | 7 => 181 + l
  | 8 => 212 + l
  | 9 => 243 + l
  | 10 => 273 + l
  | 11 => 304 + l
  | 12 => 334 + l
  | _ => 365 + l

/-- Days before January 1st of year `y` (`datetime._days_before_year`). -/
def daysBeforeYear (y : ℕ) : ℕ :=
  365 * (y - 1) + (y - 1) / 4 - (y - 1) / 100 + (y - 1) / 400

/-- Proleptic Gregorian ordinal of a date (`datetime.date.toordinal`);
0001-01-01 has ordinal 1. -/
def toOrdinal (x : Date) : ℕ :=
  daysBeforeYear x.y + daysBeforeMonth x.y x.m + x.d

/-- Validity of a date: exactly the `(year, month, day)` combinations that
`datetime.date` accepts (we do not impose Python's year cap of 9999; no claim
depends on it). -/
def Valid (x : Date) : Prop :=
  1 ≤ x.y ∧ 1 ≤ x.m ∧ x.m ≤ 12 ∧ 1 ≤ x.d ∧ x.d ≤ daysInMonth x.y x.m

instance (x : Date) : Decidable (Valid x) := by unfold Valid; infer_instance

/-- Python `date` comparison `a <= b`: lexicographic on the triple. -/
def dle (a b : Date) : Bool :=
  a.y < b.y || (a.y = b.y && (a.m < b.m || (a.m = b.m && a.d ≤ b.d)))

/-- Python `date` comparison `a < b`: lexicographic on the triple. -/
def dlt (a b : Date) : Bool :=
  a.y < b.y || (a.y = b.y && (a.m < b.m || (a.m = b.m && a.d < b.d)))

/-- Weekday of an ordinal, Monday = 0 .. Sunday = 6
(`datetime.date.weekday`; ordinal 1, i.e. 0001-01-01, is a Monday). -/
def weekdayOfOrdinal (n : ℕ) : ℕ := (n + 6) % 7

/-- `datetime.date.weekday()`. -/
def weekday (x : Date) : ℕ := weekdayOfOrdinal (toOrdinal x)

/-- The next calendar date (`d + timedelta(days=1)`). -/
def succD (x : Date) : Date :=
  if x.d < daysInMonth x.y x.m then ⟨x.y, x.m, x.d + 1⟩
  else if x.m < 12 then ⟨x.y, x.m + 1, 1⟩
  else ⟨x.y + 1, 1, 1⟩

/-- The previous calendar date (`d - timedelta(days=1)`). -/
def predD (x : Date) : Date :=
  if 2 ≤ x.d then ⟨x.y, x.m, x.d - 1⟩
  else if 2 ≤ x.m then ⟨x.y, x.m - 1, daysInMonth x.y (x.m - 1)⟩
  else ⟨x.y - 1, 12, 31⟩

/-- `d + timedelta(days=k)` for `k ≥ 0`. -/
def addDays (k : ℕ) (x : Date) : Date := succD^[k] x

/-- `d - timedelta(days=k)` for `k ≥ 0`. -/
def subDays (k : ℕ) (x : Date) : Date := predD^[k] x

/-! ## Arithmetic facts about the date embedding -/

theorem toOrdinal_mk (y m d : ℕ) :
    toOrdinal ⟨y, m, d⟩ = daysBeforeYear y + daysBeforeMonth y m + d := rfl

theorem valid_mk (y m d : ℕ) :
    Valid ⟨y, m, d⟩ ↔ 1 ≤ y ∧ 1 ≤ m ∧ m ≤ 12 ∧ 1 ≤ d ∧ d ≤ daysInMonth y m := Iff.rfl

theorem isLeap_iff (y : ℕ) :
    isLeap y = true ↔ (y % 4 = 0 ∧ (y % 100 ≠ 0 ∨ y % 400 = 0)) := by
  simp [isLeap]

theorem daysBeforeYear_succ (y : ℕ) (hy : 1 ≤ y) :
    daysBeforeYear (y + 1) = daysBeforeYear y + 365 + (if isLeap y then 1 else 0) := by
  obtain ⟨z, rfl⟩ : ∃ z, y = z + 1 := ⟨y - 1, by omega⟩
  have h4 := Nat.succ_div z 4
  have h100 := Nat.succ_div z 100
  have h400 := Nat.succ_div z 400
  have hiff := isLeap_iff (z + 1)
  simp only [daysBeforeYear, Nat.add_sub_cancel]
  rw [h4, h100, h400]
  cases hl : isLeap (z + 1) with
  | true =>
    rw [hl] at hiff
    have hp := hiff.1 rfl
    simp only [if_true]
    split_ifs <;> omega
  | false =>
    have hp : ¬ ((z + 1) % 4 = 0 ∧ ((z + 1) % 100 ≠ 0 ∨ (z + 1) % 400 = 0)) := by
      intro hc
      exact absurd (hiff.2 hc) (by simp [hl])
    simp only [Bool.false_eq_true, if_false]
    split_ifs <;> omega

theorem daysBeforeYear_le_succ (y : ℕ) : daysBeforeYear y ≤ daysBeforeYear (y + 1) := by
  rcases Nat.eq_zero_or_pos y with h | h
  · subst h; simp [daysBeforeYear]
  · rw [daysBeforeYear_succ y h]; omega

theorem daysBeforeYear_mono : Monotone daysBeforeYear :=
  monotone_nat_of_le_succ daysBeforeYear_le_succ

theorem daysBeforeYear_succ_ge (y : ℕ) (hy : 1 ≤ y) :
    daysBeforeYear y + 365 ≤ daysBeforeYear (y + 1) := by
  rw [daysBeforeYear_succ y hy]; omega

theorem daysBeforeYear_succ_le (y : ℕ) (hy : 1 ≤ y) :
    daysBeforeYear (y + 1) ≤ daysBeforeYear y + 366 := by
  rw [daysBeforeYear_succ y hy]; split <;> omega

theorem daysInMonth_pos (y m : ℕ) (h1 : 1 ≤ m) (h2 : m ≤ 12) :
    28 ≤ daysInMonth y m ∧ daysInMonth y m ≤ 31 := by
  cases hl : isLeap y <;> interval_cases m <;> norm_num [daysInMonth, hl]

theorem daysBeforeMonth_add (y m : ℕ) (h1 : 1 ≤ m) (h2 : m ≤ 12) :
    daysBeforeMonth y m + daysInMonth y m = daysBeforeMonth y (m + 1) := by
  cases hl : isLeap y <;> interval_cases m <;> norm_num [daysBeforeMonth, daysInMonth, hl]

theorem daysBeforeMonth_last (y : ℕ) :
    daysBeforeMonth y 13 = 365 + (if isLeap y then 1 else 0) := by
  simp [daysBeforeMonth]

theorem daysBeforeMonth_mono (y : ℕ) {m m' : ℕ} (h1 : 1 ≤ m) (hm : m ≤ m') (h2 : m' ≤ 13) :
    daysBeforeMonth y m ≤ daysBeforeMonth y m' := by
  induction m' with
  | zero => omega
  | succ k ih =>
    rcases Nat.lt_or_ge m (k + 1) with h | h
    · have hk : 1 ≤ k := by omega
      have := ih (by omega) (by omega)
      rcases Nat.lt_or_ge k 13 with hk13 | hk13
      · have := daysBeforeMonth_add y k hk (by omega)
        omega
      · omega
    · have : m = k + 1 := by omega
      subst this; exact le_refl _

theorem toOrdinal_bounds (x : Date) (h : Valid x) :
    daysBeforeYear x.y + 1 ≤ toOrdinal x ∧
      toOrdinal x ≤ daysBeforeYear x.y + 365 + (if isLeap x.y then 1 else 0) := by
  obtain ⟨hy, hm1, hm2, hd1, hd2⟩ := h
  have hA := daysBeforeMonth_add x.y x.m hm1 hm2
  have hB := @daysBeforeMonth_mono x.y (x.m + 1) 13 (by omega) (by omega) (by omega)
  have hC := daysBeforeMonth_last x.y
  unfold toOrdinal
  constructor
  · omega
  · omega

theorem toOrdinal_pos (x : Date) (h : Valid x) : 1 ≤ toOrdinal x := by
  have := toOrdinal_bounds x h
  omega

theorem toOrdinal_succD (x : Date) (h : Valid x) :
    toOrdinal (succD x) = toOrdinal x + 1 ∧ Valid (succD x) := by
  obtain ⟨hy, hm1, hm2, hd1, hd2⟩ := h
  have hx : toOrdinal x = daysBeforeYear x.y + daysBeforeMonth x.y x.m + x.d := rfl
  unfold succD
  by_cases h1 : x.d < daysInMonth x.y x.m
  · simp only [h1, if_true]
    rw [toOrdinal_mk, valid_mk]
    exact ⟨by omega, hy, hm1, hm2, by omega, by omega⟩
  · simp only [h1, if_false]
    have hd : x.d = daysInMonth x.y x.m := by omega
    by_cases h2 : x.m < 12
    · simp only [h2, if_true]
      rw [toOrdinal_mk, valid_mk]
      have hA := daysBeforeMonth_add x.y x.m hm1 hm2
      have := daysInMonth_pos x.y (x.m + 1) (by omega) (by omega)
      exact ⟨by omega, hy, by omega, by omega, le_refl _, by omega⟩
    · simp only [h2, if_false]
      have hm : x.m = 12 := by omega
      rw [toOrdinal_mk, valid_mk]
      have hA := daysBeforeMonth_add x.y 12 (by omega) (by omega)
      norm_num at hA
      have hC := daysBeforeMonth_last x.y
      have hS := daysBeforeYear_succ x.y hy
      have hd31 : daysInMonth x.y 12 = 31 := rfl
      have hB1 : daysBeforeMonth (x.y + 1) 1 = 0 := rfl
      have hM1 : daysInMonth (x.y + 1) 1 = 31 := rfl
      rw [hm] at hx hd
      exact ⟨by omega, by omega, by omega, by omega, by omega, by omega⟩

theorem toOrdinal_addDays (k : ℕ) (x : Date) (h : Valid x) :
    toOrdinal (addDays k x) = toOrdinal x + k ∧ Valid (addDays k x) := by
  induction k with
  | zero => simpa [addDays] using h
  | succ n ih =>
    have hstep := toOrdinal_succD (addDays n x) ih.2
    have : addDays (n + 1) x = succD (addDays n x) := by
      simp [addDays, Function.iterate_succ_apply']
    rw [this]
    exact ⟨by omega, hstep.2⟩

theorem toOrdinal_predD (x : Date) (h : Valid x) (h2 : 2 ≤ toOrdinal x) :
    toOrdinal (predD x) = toOrdinal x - 1 ∧ Valid (predD x) := by
  obtain ⟨hy, hm1, hm2, hd1, hd2⟩ := h
  have hx : toOrdinal x = daysBeforeYear x.y + daysBeforeMonth x.y x.m + x.d := rfl
  unfold predD
  by_cases hd : 2 ≤ x.d
  · simp only [hd, if_true]
    rw [toOrdinal_mk, valid_mk]
    exact ⟨by omega, hy, hm1, hm2, by omega, by omega⟩
  · simp only [hd, if_false]
    have hd1' : x.d = 1 := by omega
    by_cases hm : 2 ≤ x.m
    · simp only [hm, if_true]
      rw [toOrdinal_mk, valid_mk]
      have hA := daysBeforeMonth_add x.y (x.m - 1) (by omega) (by omega)
      have hmm : x.m - 1 + 1 = x.m := by omega
      rw [hmm] at hA
      have := daysInMonth_pos x.y (x.m - 1) (by omega) (by omega)
      exact ⟨by omega, hy, by omega, by omega, by omega, le_refl _⟩
    · simp only [hm, if_false]
      have hm1' : x.m = 1 := by omega
      have hB1 : daysBeforeMonth x.y 1 = 0 := rfl
      rw [hm1', hd1', hB1] at hx
      have hyy : 2 ≤ x.y := by
        by_contra hc
        have hc1 : x.y = 1 := by omega
        rw [hc1] at hx
        have hz : daysBeforeYear 1 = 0 := rfl
        omega
      rw [toOrdinal_mk, valid_mk]
      have hS := daysBeforeYear_succ (x.y - 1) (by omega)
      have hyy1 : x.y - 1 + 1 = x.y := by omega
      rw [hyy1] at hS
      have hC := daysBeforeMonth_last (x.y - 1)
      have hA := daysBeforeMonth_add (x.y - 1) 12 (by omega) (by omega)
      norm_num at hA
      have hd31 : daysInMonth (x.y - 1) 12 = 31 := rfl
      exact ⟨by omega, by omega, by omega, by omega, by omega, by omega⟩

theorem toOrdinal_subDays (k : ℕ) (x : Date) (h : Valid x) (hk : k + 1 ≤ toOrdinal x) :
    toOrdinal (subDays k x) = toOrdinal x - k ∧ Valid (subDays k x) := by
  induction k with
  | zero => simpa [subDays] using h
  | succ n ih =>
    have ihs := ih (by omega)
    have hstep := toOrdinal_predD (subDays n x) ihs.2 (by omega)
    have : subDays (n + 1) x = predD (subDays n x) := by
      simp [subDays, Function.iterate_succ_apply']
    rw [this]
    exact ⟨by omega, hstep.2⟩

/-- Strict monotonicity: lexicographic (Python `date`) order agrees with the
ordinal order on valid dates. -/
theorem toOrdinal_lt_of_dlt (a b : Date) (ha : Valid a) (hb : Valid b)
    (h : dlt a b = true) : toOrdinal a < toOrdinal b := by
  obtain ⟨ay, am, ad⟩ := a
  obtain ⟨by_, bm, bd⟩ := b
  rw [valid_mk] at ha hb
  obtain ⟨hay, ham1, ham2, had1, had2⟩ := ha
  obtain ⟨hby, hbm1, hbm2, hbd1, hbd2⟩ := hb
  simp only [dlt, Bool.or_eq_true, Bool.and_eq_true, decide_eq_true_eq] at h
  rw [toOrdinal_mk, toOrdinal_mk]
  rcases h with h | ⟨hy, h⟩
  · -- ay < by_
    have h1 : toOrdinal ⟨ay, am, ad⟩ ≤ daysBeforeYear ay + 365 + (if isLeap ay then 1 else 0) :=
      (toOrdinal_bounds _ ((valid_mk ay am ad).2 ⟨hay, ham1, ham2, had1, had2⟩)).2
    rw [toOrdinal_mk] at h1
    have h3 := daysBeforeYear_succ ay hay
    have h4 := daysBeforeYear_mono (Nat.succ_le_of_lt h)
    simp only [Nat.succ_eq_add_one] at h4
    omega
  · subst hy
    rcases h with h | ⟨hm, hd⟩
    · -- same year, am < bm
      have hA := daysBeforeMonth_add ay am ham1 ham2
      have hB := @daysBeforeMonth_mono ay (am + 1) bm
        (by omega) (by omega) (by omega)
      omega
    · subst hm
      omega

theorem dle_or_dlt (a b : Date) : dle a b = true ∨ dlt b a = true := by
  simp only [dle, dlt, Bool.or_eq_true, Bool.and_eq_true, decide_eq_true_eq]
  omega

theorem dlt_irrefl_ord (a b : Date) (ha : Valid a) (hb : Valid b)
    (h : dlt a b = true) : ¬ (toOrdinal b ≤ toOrdinal a) := by
  have := toOrdinal_lt_of_dlt a b ha hb h
  omega

/-- On valid dates, `dle` is equivalent to comparison of ordinals. -/
theorem dle_iff_ord (a b : Date) (ha : Valid a) (hb : Valid b) :
    dle a b = true ↔ toOrdinal a ≤ toOrdinal b := by
  constructor
  · intro h
    rcases dle_or_dlt b a with h' | h'
    · -- both dle: a ≤ b and b ≤ a in lex order
      simp only [dle, Bool.or_eq_true, Bool.and_eq_true, decide_eq_true_eq] at h h'
      have : a = b ∨ dlt a b = true := by
        simp only [dlt, Bool.or_eq_true, Bool.and_eq_true, decide_eq_true_eq]
        rcases a with ⟨ay, am, ad⟩
        rcases b with ⟨by_, bm, bd⟩
        simp only at *
        by_cases hy : ay = by_
        · by_cases hm : am = bm
          · by_cases hd : ad = bd
            · left; simp [hy, hm, hd]
            · right; omega
          · right; omega
        · right; omega
      rcases this with rfl | h''
      · omega
      · exact Nat.le_of_lt (toOrdinal_lt_of_dlt a b ha hb h'')
    · exact Nat.le_of_lt (toOrdinal_lt_of_dlt a b ha hb h')
  · intro h
    rcases dle_or_dlt a b with h' | h'
    · exact h'
    · exact absurd h (dlt_irrefl_ord b a hb ha h')

/-- On valid dates, `dlt` is equivalent to strict comparison of ordinals. -/
theorem dlt_iff_ord (a b : Date) (ha : Valid a) (hb : Valid b) :
    dlt a b = true ↔ toOrdinal a < toOrdinal b := by
  constructor
  · exact toOrdinal_lt_of_dlt a b ha hb
  · intro h
    rcases dle_or_dlt b a with h' | h'
    · have := (dle_iff_ord b a hb ha).1 h'
      exact absurd h (by omega)
    · exact h'

/-- Valid dates with equal ordinals are equal. -/
theorem toOrdinal_inj (a b : Date) (ha : Valid a) (hb : Valid b)
    (h : toOrdinal a = toOrdinal b) : a = b := by
  rcases dle_or_dlt a b with h1 | h1
  · rcases dle_or_dlt b a with h2 | h2
    · -- a ≤ b and b ≤ a lexicographically
      simp only [dle, Bool.or_eq_true, Bool.and_eq_true, decide_eq_true_eq] at h1 h2
      rcases a with ⟨ay, am, ad⟩
      rcases b with ⟨by_, bm, bd⟩
      simp only at *
      have : ay = by_ ∧ am = bm ∧ ad = bd := by omega
      simp [this.1, this.2.1, this.2.2]
    · have := toOrdinal_lt_of_dlt a b ha hb h2
      omega
  · have := toOrdinal_lt_of_dlt b a hb ha h1
    omega

theorem weekday_add_one_le (x : Date) (h : Valid x) : weekday x + 1 ≤ toOrdinal x := by
  have h1 := toOrdinal_pos x h
  unfold weekday weekdayOfOrdinal
  omega

/-! ## `week_calculator.py` -/

/-- Ordinal of the Monday starting ISO week 1 of `year` — CPython
`datetime._isoweek1monday`, the standard-library routine behind
`date.isocalendar()`, to which `WeekCalculator.get_iso_week` delegates. -/
def isoweek1monday (year : ℕ) : ℤ :=
  let firstday : ℤ := (daysBeforeYear year : ℤ) + 1
  let firstweekday : ℤ := (firstday + 6) % 7
  let week1monday := firstday - firstweekday
  if 3 < firstweekday then week1monday + 7 else week1monday

/-- `WeekCalculator.get_iso_week(date)`: the `(iso_year, week_number)` pair of
`date.isocalendar()`, embedded as CPython's algorithm for it. -/
def get_iso_week (x : Date) : ℤ × ℤ :=
  let year : ℤ := x.y
  let today : ℤ := toOrdinal x
  let week := (today - isoweek1monday x.y) / 7
  if week < 0 then
    (year - 1, (today - isoweek1monday (x.y - 1)) / 7 + 1)
  else if 52 ≤ week ∧ isoweek1monday (x.y + 1) ≤ today then
    (year + 1, 1)
  else (year, week + 1)

/-- Reference ISO 8601 definition, stated from the spec's words: the Monday
week containing the date's Thursday determines the pair — the ISO year is the
calendar year of that Thursday (necessarily the date's year or one of its
neighbours, decided by comparing the Thursday with the year boundaries), and
the week number counts Mondays from week 1, the week containing January 4th
of the ISO year. -/
def isoWeekRef (x : Date) : ℤ × ℤ :=
  let n : ℤ := toOrdinal x
  let thursday := n - (n + 6) % 7 + 3
  let isoYear : ℕ :=
    if thursday < (daysBeforeYear x.y : ℤ) + 1 then x.y - 1
    else if (daysBeforeYear (x.y + 1) : ℤ) + 1 ≤ thursday then x.y + 1
    else x.y
  let jan4 : ℤ := (daysBeforeYear isoYear : ℤ) + 4
  let week1monday := jan4 - (jan4 + 6) % 7
  ((isoYear : ℤ), (thursday - (week1monday + 3)) / 7 + 1)

theorem isoweek1monday_spec (y : ℕ) :
    (daysBeforeYear y : ℤ) + 1 - 3 ≤ isoweek1monday y ∧
      isoweek1monday y ≤ (daysBeforeYear y : ℤ) + 1 + 3 ∧
      isoweek1monday y % 7 = 1 := by
  simp only [isoweek1monday]
  split_ifs <;> omega

/-- CPython's `_isoweek1monday` coincides with "the Monday of the week
containing January 4th" (the formula `get_week_start_date` uses). -/
theorem isoweek1monday_eq_jan4 (y : ℕ) :
    isoweek1monday y =
      ((daysBeforeYear y : ℤ) + 4) - (((daysBeforeYear y : ℤ) + 4) + 6) % 7 := by
  simp only [isoweek1monday]
  split_ifs <;> omega

theorem leapBit_le (y : ℕ) : (if isLeap y then 1 else 0 : ℕ) ≤ 1 := by
  split <;> omega

theorem isoweek1monday_add (y : ℕ) (hy : 1 ≤ y) :
    isoweek1monday y + 364 ≤ isoweek1monday (y + 1) := by
  have h1 := isoweek1monday_spec y
  have h2 := isoweek1monday_spec (y + 1)
  have h3 := daysBeforeYear_succ y hy
  have h4 := leapBit_le y
  omega

theorem isoweek1monday_mono {a b : ℕ} (ha : 1 ≤ a) (hab : a ≤ b) :
    isoweek1monday a ≤ isoweek1monday b := by
  induction b, hab using Nat.le_induction with
  | base => exact le_refl _
  | succ n hn ih =>
    have := isoweek1monday_add n (by omega)
    omega

/-- Bridge between the Thursday of a date's week and an interval bounded by a
Monday-aligned ordinal `M` near a January 1st ordinal `J7`. -/
theorem monday_bridge (t M J7 : ℤ) (hM1 : J7 - 3 ≤ M) (hM2 : M ≤ J7 + 3)
    (hmod : M % 7 = 1) : M ≤ t ↔ J7 ≤ t - (t + 6) % 7 + 3 := by
  omega

/-- Characterization of `get_iso_week`: it returns a pair `(iy, w)` of
positive numbers with the date inside the `w`-th Monday week of ISO year
`iy`. -/
theorem get_iso_week_spec (x : Date) (h : Valid x) :
    ∃ (iy w : ℕ), get_iso_week x = ((iy : ℤ), (w : ℤ)) ∧ 1 ≤ iy ∧ 1 ≤ w ∧
      isoweek1monday iy ≤ (toOrdinal x : ℤ) ∧
      (toOrdinal x : ℤ) < isoweek1monday (iy + 1) ∧
      (w : ℤ) = ((toOrdinal x : ℤ) - isoweek1monday iy) / 7 + 1 := by
  have hy1 : 1 ≤ x.y := h.1
  have hb := toOrdinal_bounds x h
  have hWy := isoweek1monday_spec x.y
  have hWy1 := isoweek1monday_spec (x.y + 1)
  have hJ := daysBeforeYear_succ x.y hy1
  have hbit := leapBit_le x.y
  simp only [get_iso_week]
  split_ifs with hneg hhigh
  · -- week < 0 : the date lies in the last ISO week of the previous year
    have hy2 : 2 ≤ x.y := by
      by_contra hc
      have hx1 : x.y = 1 := by omega
      have hW1 : isoweek1monday 1 = 1 := by decide
      have hz : daysBeforeYear 1 = 0 := rfl
      rw [hx1] at hneg hb
      rw [hW1] at hneg
      rw [hz] at hb
      omega
    have hWym := isoweek1monday_spec (x.y - 1)
    have hJm := daysBeforeYear_succ (x.y - 1) (by omega)
    have hbitm := leapBit_le (x.y - 1)
    have hsub : x.y - 1 + 1 = x.y := by omega
    rw [hsub] at hJm
    refine ⟨x.y - 1, (((toOrdinal x : ℤ) - isoweek1monday (x.y - 1)) / 7 + 1).toNat,
      ?_, by omega, ?_, ?_, ?_, ?_⟩
    · have : ((x.y : ℤ)) - 1 = ((x.y - 1 : ℕ) : ℤ) := by omega
      rw [this, Prod.mk.injEq]
      constructor
      · rfl
      · omega
    · omega
    · omega
    · rw [hsub]; omega
    · omega
  · -- 52 ≤ week and next year's week-1 Monday reached: week 1 of next year
    obtain ⟨hge, hnext⟩ := hhigh
    have hWy2 := isoweek1monday_spec (x.y + 2)
    have hJ2 := daysBeforeYear_succ (x.y + 1) (by omega)
    have hadd2 : x.y + 1 + 1 = x.y + 2 := rfl
    rw [hadd2] at hJ2
    have hbit2 := leapBit_le (x.y + 1)
    refine ⟨x.y + 1, 1, ?_, by omega, by omega, by omega, ?_, ?_⟩
    · rw [Prod.mk.injEq]
      constructor
      · omega
      · rfl
    · have : x.y + 1 + 1 = x.y + 2 := rfl
      rw [this]
      omega
    · omega
  · -- regular case: the date lies in week `week + 1` of its own year
    rw [not_and_or] at hhigh
    have hlow : isoweek1monday x.y ≤ (toOrdinal x : ℤ) := by omega
    have hup : (toOrdinal x : ℤ) < isoweek1monday (x.y + 1) := by
      rcases hhigh with hlt | hnot
      · -- week < 52 forces the date before next year's week-1 Monday
        have hdiff := isoweek1monday_add x.y hy1
        omega
      · omega
    refine ⟨x.y, ((((toOrdinal x : ℤ) - isoweek1monday x.y) / 7) + 1).toNat,
      ?_, by omega, ?_, hlow, hup, ?_⟩
    · rw [Prod.mk.injEq]
      constructor
      · rfl
      · omega
    · omega
    · omega

/-- Characterization of the spec's reference ISO definition: same shape as
`get_iso_week_spec`. -/
theorem isoWeekRef_spec (x : Date) (h : Valid x) :
    ∃ (iy w : ℕ), isoWeekRef x = ((iy : ℤ), (w : ℤ)) ∧ 1 ≤ iy ∧ 1 ≤ w ∧
      isoweek1monday iy ≤ (toOrdinal x : ℤ) ∧
      (toOrdinal x : ℤ) < isoweek1monday (iy + 1) ∧
      (w : ℤ) = ((toOrdinal x : ℤ) - isoweek1monday iy) / 7 + 1 := by
  have hy1 : 1 ≤ x.y := h.1
  have hb := toOrdinal_bounds x h
  have ht1 := toOrdinal_pos x h
  have hWy := isoweek1monday_spec x.y
  have hWy1 := isoweek1monday_spec (x.y + 1)
  have hJ := daysBeforeYear_succ x.y hy1
  have hbit := leapBit_le x.y
  have hbry := monday_bridge (toOrdinal x : ℤ) (isoweek1monday x.y)
    ((daysBeforeYear x.y : ℤ) + 1) (by omega) (by omega) (by omega)
  have hbry1 := monday_bridge (toOrdinal x : ℤ) (isoweek1monday (x.y + 1))
    ((daysBeforeYear (x.y + 1) : ℤ) + 1) (by omega) (by omega) (by omega)
  simp only [isoWeekRef]
  split_ifs with hlt hge
  · -- Thursday before Jan 1 of the date's year: ISO year is the previous year
    have hy2 : 2 ≤ x.y := by
      by_contra hc
      have hx1 : x.y = 1 := by omega
      have hz : daysBeforeYear 1 = 0 := rfl
      rw [hx1] at hlt
      rw [hz] at hlt
      omega
    have hWym := isoweek1monday_spec (x.y - 1)
    have hJm := daysBeforeYear_succ (x.y - 1) (by omega)
    have hbitm := leapBit_le (x.y - 1)
    have hsub : x.y - 1 + 1 = x.y := by omega
    rw [hsub] at hJm
    have hup : (toOrdinal x : ℤ) < isoweek1monday x.y := by omega
    have hlow : isoweek1monday (x.y - 1) ≤ (toOrdinal x : ℤ) := by omega
    have hjan4 := isoweek1monday_eq_jan4 (x.y - 1)
    refine ⟨x.y - 1, ((((toOrdinal x : ℤ) - (toOrdinal x + 6 : ℤ) % 7 + 3 -
        (isoweek1monday (x.y - 1) + 3)) / 7) + 1).toNat, ?_, by omega, ?_, hlow, ?_, ?_⟩
    · rw [Prod.mk.injEq]
      constructor
      · rfl
      · have hmon := hWym.2.2
        omega
    · have hmon := hWym.2.2
      omega
    · rw [hsub]; exact hup
    · have hmon := hWym.2.2
      omega
  · -- Thursday on or after Jan 1 of the next year: ISO year is the next year
    have hWy2 := isoweek1monday_spec (x.y + 2)
    have hJ2 := daysBeforeYear_succ (x.y + 1) (by omega)
    have hadd2 : x.y + 1 + 1 = x.y + 2 := rfl
    rw [hadd2] at hJ2
    have hbit2 := leapBit_le (x.y + 1)
    have hlow : isoweek1monday (x.y + 1) ≤ (toOrdinal x : ℤ) := by omega
    have hup : (toOrdinal x : ℤ) < isoweek1monday (x.y + 2) := by omega
    have hjan4 := isoweek1monday_eq_jan4 (x.y + 1)
    refine ⟨x.y + 1, ((((toOrdinal x : ℤ) - (toOrdinal x + 6 : ℤ) % 7 + 3 -
        (isoweek1monday (x.y + 1) + 3)) / 7) + 1).toNat, ?_, by omega, ?_, hlow, ?_, ?_⟩
    · rw [Prod.mk.injEq]
      constructor
      · omega
      · have hmon := hWy1.2.2
        omega
    · have hmon := hWy1.2.2
      omega
    · have : x.y + 1 + 1 = x.y + 2 := rfl
      rw [this]
      exact hup
    · have hmon := hWy1.2.2
      omega
  · -- Thursday inside the date's own year
    have hlow : isoweek1monday x.y ≤ (toOrdinal x : ℤ) := by omega
    have hup : (toOrdinal x : ℤ) < isoweek1monday (x.y + 1) := by omega
    have hjan4 := isoweek1monday_eq_jan4 x.y
    refine ⟨x.y, ((((toOrdinal x : ℤ) - (toOrdinal x + 6 : ℤ) % 7 + 3 -
        (isoweek1monday x.y + 3)) / 7) + 1).toNat, ?_, by omega, ?_, hlow, hup, ?_⟩
    · rw [Prod.mk.injEq]
      constructor
      · rfl
      · have hmon := hWy.2.2
        omega
    · have hmon := hWy.2.2
      omega
    · have hmon := hWy.2.2
      omega

/-- The two ISO computations agree on every valid date. -/
theorem get_iso_week_eq_ref (x : Date) (h : Valid x) :
    get_iso_week x = isoWeekRef x := by
  obtain ⟨iy, w, he, hiy, hw, hlo, hhi, hform⟩ := get_iso_week_spec x h
  obtain ⟨iy', w', he', hiy', hw', hlo', hhi', hform'⟩ := isoWeekRef_spec x h
  have hyy : iy = iy' := by
    by_contra hne
    rcases Nat.lt_or_ge iy iy' with hlt | hge
    · have : isoweek1monday (iy + 1) ≤ isoweek1monday iy' :=
        isoweek1monday_mono (by omega) (by omega)
      omega
    · have hlt : iy' < iy := by omega
      have : isoweek1monday (iy' + 1) ≤ isoweek1monday iy :=
        isoweek1monday_mono (by omega) (by omega)
      omega
  subst hyy
  have hww : (w : ℤ) = (w' : ℤ) := by rw [hform, hform']
  rw [he, he', hww]

/-- `WeekCalculator.get_week_start_date(year, week)`: Monday of the given ISO
week — January 4th, back to its Monday, forward `week - 1` weeks. -/
def get_week_start_date (year week : ℕ) : Date :=
  let jan4 : Date := ⟨year, 1, 4⟩
  let week1_monday := subDays (weekday jan4) jan4
  addDays (7 * (week - 1)) week1_monday

/-- Python `max` of two dates (keeps the first on ties). -/
def pymax (a b : Date) : Date := if dlt a b then b else a

/-- Python `min` of two dates (keeps the first on ties). -/
def pymin (a b : Date) : Date := if dlt b a then b else a

/-- One day cell of the standard month grid: an entry of
`week_info["dates"]` built by `WeekCalculator.get_month_weeks`. -/
structure DayCell where
  date : Date
  day : ℕ
  weekday : ℕ
  in_current_month : Bool
  is_previous_month : Bool
  is_next_month : Bool
  deriving DecidableEq, Repr

/-- One `week_info` record of `WeekCalculator.get_month_weeks`. -/
structure WeekInfo where
  week_number : ℤ
  iso_year : ℤ
  week_start : Date
  week_end : Date
  days_in_month : ℕ
  is_complete_week : Bool
  dates : List DayCell
  deriving DecidableEq, Repr

/-- The cell built for one date of a week row (the body of the
`for i in range(7)` loop of `get_month_weeks`). -/
def mkCell (first_day last_day dt : Date) : DayCell :=
  { date := dt
    day := dt.d
    weekday := weekday dt
    in_current_month := dle first_day dt && dle dt last_day
    is_previous_month := dlt dt first_day
    is_next_month := dlt last_day dt }

/-- One iteration of the `while` loop of `get_month_weeks`: the week record
for the week starting at (Monday) `week_start`. -/
def mkWeekInfo (first_day last_day week_start : Date) : WeekInfo :=
  let week_end := addDays 6 week_start
  let iso := get_iso_week (addDays 3 week_start)
  let month_start := pymax week_start first_day
  let month_end := pymin week_end last_day
  let dim := if dle month_start month_end
    then toOrdinal month_end - toOrdinal month_start + 1 else 0
  { week_number := iso.2
    iso_year := iso.1
    week_start := week_start
    week_end := week_end
    days_in_month := dim
    is_complete_week := dim = 7
    dates := (List.range 7).map (fun i => mkCell first_day last_day (addDays i week_start)) }

/-- The `while week_start <= last_day` loop of `get_month_weeks`. The source
compares Python `date` objects, which on the (always valid) dates it builds
is the ordinal comparison; validity of `week_start` is carried so the
ordinal strictly increases, giving termination. -/
def monthWeeksAux (first_day last_day ws : Date) (h : Valid ws) : List WeekInfo :=
  if _hle : toOrdinal ws ≤ toOrdinal last_day then
    mkWeekInfo first_day last_day ws ::
      monthWeeksAux first_day last_day (addDays 7 ws) (toOrdinal_addDays 7 ws h).2
  else []
termination_by toOrdinal last_day + 1 - toOrdinal ws
decreasing_by
  have := (toOrdinal_addDays 7 ws h).1
  omega

/-- Last day of month `(year, month)` as the source computes it:
`date(year, month + 1, 1) - timedelta(days=1)` (January of the next year
after December). -/
def lastDayOfMonth (year month : ℕ) : Date :=
  if month = 12 then predD ⟨year + 1, 1, 1⟩ else predD ⟨year, month + 1, 1⟩

theorem lastDayOfMonth_eq (year month : ℕ) (_hy : 1 ≤ year) (h1 : 1 ≤ month)
    (h2 : month ≤ 12) : lastDayOfMonth year month = ⟨year, month, daysInMonth year month⟩ := by
  unfold lastDayOfMonth predD
  by_cases hm : month = 12
  · subst hm
    norm_num [daysInMonth]
  · have hg : 2 ≤ month + 1 := by omega
    simp only [hm, if_false]
    norm_num [hg]

theorem firstDay_valid (year month : ℕ) (hy : 1 ≤ year) (h1 : 1 ≤ month) (h2 : month ≤ 12) :
    Valid ⟨year, month, 1⟩ := by
  rw [valid_mk]
  have := daysInMonth_pos year month h1 h2
  omega

theorem lastDay_valid (year month : ℕ) (hy : 1 ≤ year) (h1 : 1 ≤ month) (h2 : month ≤ 12) :
    Valid (lastDayOfMonth year month) := by
  rw [lastDayOfMonth_eq year month hy h1 h2, valid_mk]
  have := daysInMonth_pos year month h1 h2
  omega

theorem weekStart_valid (year month : ℕ) (hy : 1 ≤ year) (h1 : 1 ≤ month) (h2 : month ≤ 12) :
    Valid (subDays (weekday ⟨year, month, 1⟩) ⟨year, month, 1⟩) := by
  have hv := firstDay_valid year month hy h1 h2
  exact (toOrdinal_subDays _ _ hv (weekday_add_one_le _ hv)).2

/-- `WeekCalculator.get_month_weeks(year, month)`. An invalid `(year, month)`
makes `datetime.date(year, month, 1)` raise (the spec's `InvalidDate`); we
guard that case and return `[]` for it, so that the function is total. -/
def get_month_weeks (year month : ℕ) : List WeekInfo :=
  if h : 1 ≤ year ∧ 1 ≤ month ∧ month ≤ 12 then
    let first_day : Date := ⟨year, month, 1⟩
    let last_day := lastDayOfMonth year month
    let week_start := subDays (weekday first_day) first_day
    monthWeeksAux first_day last_day week_start (weekStart_valid year month h.1 h.2.1 h.2.2)
  else []

theorem get_month_weeks_eq (year month : ℕ) (hy : 1 ≤ year) (h1 : 1 ≤ month)
    (h2 : month ≤ 12) :
    get_month_weeks year month =
      monthWeeksAux ⟨year, month, 1⟩ (lastDayOfMonth year month)
        (subDays (weekday ⟨year, month, 1⟩) ⟨year, month, 1⟩)
        (weekStart_valid year month hy h1 h2) := by
  unfold get_month_weeks
  rw [dif_pos ⟨hy, h1, h2⟩]

/-- The numeric fields of `WeekCalculator.analyze_month_layout(year, month)`
(the cosmetic `layout_type` label and the round-to-one-decimal presentation
of the two mm sizes are omitted; no claim mentions them). -/
structure LayoutInfo where
  rows_needed : ℕ
  row_height : ℚ
  photo_height : ℚ
  photo_width : ℕ
  first_weekday : ℕ
  days_in_month : ℕ
  has_overflow : Bool
  deriving DecidableEq, Repr

/-- `WeekCalculator.analyze_month_layout(year, month)`. -/
def analyze_month_layout (year month : ℕ) : LayoutInfo :=
  let first_day : Date := ⟨year, month, 1⟩
  let last_day := lastDayOfMonth year month
  let days_in_month := last_day.d
  let first_weekday := weekday first_day
  let total_cells_needed := first_weekday + days_in_month
  let rows_needed := (total_cells_needed + 6) / 7
  let available_height : ℚ := 245 - 8
  let row_height : ℚ := available_height / rows_needed
  { rows_needed := rows_needed
    row_height := row_height
    photo_height := row_height - 3
    photo_width := 55
    first_weekday := first_weekday
    days_in_month := days_in_month
    has_overflow := 5 < rows_needed }

/-- The structured output of `WeekCalculator.generate_calendar_grid`
(localized month/weekday name strings and the echoed config are omitted;
they are rendering-only). -/
structure GridData where
  year : ℕ
  month : ℕ
  previous_month : ℕ × ℕ
  next_month : ℕ × ℕ
  weeks : List WeekInfo
  total_weeks : ℕ
  layout : LayoutInfo
  deriving DecidableEq, Repr

/-- `WeekCalculator.generate_calendar_grid(year, month)`. -/
def generate_calendar_grid (year month : ℕ) : GridData :=
  let weeks := get_month_weeks year month
  let prev : ℕ × ℕ := if month = 1 then (12, year - 1) else (month - 1, year)
  let next : ℕ × ℕ := if month = 12 then (1, year + 1) else (month + 1, year)
  { year := year
    month := month
    previous_month := prev
    next_month := next
    weeks := weeks
    total_weeks := weeks.length
    layout := analyze_month_layout year month }

/-! ## Structure of the standard month grid -/

theorem addDays_add (a b : ℕ) (x : Date) : addDays (a + b) x = addDays a (addDays b x) := by
  simp [addDays, Function.iterate_add_apply]

theorem addDays_zero (x : Date) : addDays 0 x = x := rfl

/-- Closed form of the `while` loop: one `mkWeekInfo` per Monday, indexed by
week count. -/
theorem monthWeeksAux_eq (first_day last_day ws : Date) (h : Valid ws) :
    monthWeeksAux first_day last_day ws h =
      (List.range (((toOrdinal last_day : ℤ) - toOrdinal ws) / 7 + 1).toNat).map
        (fun k => mkWeekInfo first_day last_day (addDays (7 * k) ws)) := by
  rw [monthWeeksAux]
  split_ifs with hle
  · have ha := toOrdinal_addDays 7 ws h
    have ih := monthWeeksAux_eq first_day last_day (addDays 7 ws) ha.2
    rw [ih]
    have hn : (((toOrdinal last_day : ℤ) - toOrdinal ws) / 7 + 1).toNat =
        (((toOrdinal last_day : ℤ) - toOrdinal (addDays 7 ws)) / 7 + 1).toNat + 1 := by
      omega
    rw [hn, List.range_succ_eq_map, List.map_cons, List.map_map]
    refine List.cons_eq_cons.mpr ⟨?_, ?_⟩
    · have h0 : addDays (7 * 0) ws = ws := by rw [Nat.mul_zero, addDays_zero]
      simp only [h0]
    · apply List.map_congr_left
      intro k _
      have h7 : 7 * (k + 1) = 7 * k + 7 := by ring
      simp only [Function.comp_apply, Nat.succ_eq_add_one, h7, addDays_add]
  · have : (((toOrdinal last_day : ℤ) - toOrdinal ws) / 7 + 1).toNat = 0 := by omega
    rw [this]
    rfl
termination_by toOrdinal last_day + 1 - toOrdinal ws
decreasing_by
  have := (toOrdinal_addDays 7 ws h).1
  omega

theorem monthWeeksAux_length (first_day last_day ws : Date) (h : Valid ws) :
    (monthWeeksAux first_day last_day ws h).length =
      (((toOrdinal last_day : ℤ) - toOrdinal ws) / 7 + 1).toNat := by
  rw [monthWeeksAux_eq]
  simp

theorem weekday_lt (x : Date) : weekday x < 7 := by
  unfold weekday weekdayOfOrdinal
  omega

/-- Ordinal bookkeeping for `get_month_weeks`: the first day, last day and
starting Monday of the grid. -/
theorem get_month_weeks_frame (year month : ℕ) (hy : 1 ≤ year) (h1 : 1 ≤ month)
    (h2 : month ≤ 12) :
    toOrdinal (lastDayOfMonth year month) =
        toOrdinal ⟨year, month, 1⟩ + daysInMonth year month - 1 ∧
      toOrdinal (subDays (weekday ⟨year, month, 1⟩) ⟨year, month, 1⟩) =
        toOrdinal ⟨year, month, 1⟩ - weekday ⟨year, month, 1⟩ := by
  have hv := firstDay_valid year month hy h1 h2
  have hw := weekday_add_one_le _ hv
  have hs := toOrdinal_subDays (weekday ⟨year, month, 1⟩) _ hv hw
  rw [lastDayOfMonth_eq year month hy h1 h2]
  constructor
  · rw [toOrdinal_mk, toOrdinal_mk]
    omega
  · exact hs.1

/-- The number of week rows produced by the loop of `get_month_weeks`. -/
theorem get_month_weeks_length (year month : ℕ) (hy : 1 ≤ year) (h1 : 1 ≤ month)
    (h2 : month ≤ 12) :
    (get_month_weeks year month).length =
      (weekday ⟨year, month, 1⟩ + daysInMonth year month - 1) / 7 + 1 := by
  have hframe := get_month_weeks_frame year month hy h1 h2
  have hv := firstDay_valid year month hy h1 h2
  have hw := weekday_add_one_le _ hv
  have hdim := daysInMonth_pos year month h1 h2
  rw [get_month_weeks_eq year month hy h1 h2]
  rw [monthWeeksAux_length]
  rw [hframe.1, hframe.2]
  omega

/-- Ordinal of `get_week_start_date(year, week)`: the week-1 Monday plus
`week - 1` weeks; the result is a valid Monday. -/
theorem get_week_start_date_spec (year week : ℕ) (hy : 1 ≤ year) (hw : 1 ≤ week) :
    ((toOrdinal (get_week_start_date year week) : ℤ)) =
        isoweek1monday year + 7 * ((week : ℤ) - 1) ∧
      Valid (get_week_start_date year week) := by
  have hv4 : Valid (⟨year, 1, 4⟩ : Date) := by
    rw [valid_mk]
    have : daysInMonth year 1 = 31 := rfl
    omega
  have hwd := weekday_add_one_le _ hv4
  have hsub := toOrdinal_subDays (weekday ⟨year, 1, 4⟩) _ hv4 hwd
  have hadd := toOrdinal_addDays (7 * (week - 1)) _ hsub.2
  have hjan4 := isoweek1monday_eq_jan4 year
  have hord : toOrdinal (⟨year, 1, 4⟩ : Date) = daysBeforeYear year + 4 := by
    rw [toOrdinal_mk]
    have : daysBeforeMonth year 1 = 0 := rfl
    omega
  have hwdval : weekday (⟨year, 1, 4⟩ : Date) = (toOrdinal ⟨year, 1, 4⟩ + 6) % 7 := rfl
  unfold get_week_start_date
  refine ⟨?_, hadd.2⟩
  rw [hadd.1, hsub.1]
  omega

theorem mkWeekInfo_dates (f l ws : Date) :
    (mkWeekInfo f l ws).dates = (List.range 7).map (fun i => mkCell f l (addDays i ws)) := rfl

theorem flatten_range_map {α : Type} (n : ℕ) (g : ℕ → α) :
    ((List.range n).map (fun k => (List.range 7).map (fun i => g (7 * k + i)))).flatten =
      (List.range (7 * n)).map g := by
  induction n with
  | zero => simp
  | succ m ih =>
    rw [List.range_succ m, List.map_append, List.flatten_append, ih]
    simp only [List.map_cons, List.map_nil, List.flatten_cons, List.flatten_nil,
      List.append_nil]
    rw [Nat.mul_succ, List.range_add, List.map_append, List.map_map]
    simp [Function.comp]

/-- All cells of the month grid, as one run of consecutive dates starting at
the grid's Monday. -/
theorem month_cells_eq (year month : ℕ) (hy : 1 ≤ year) (h1 : 1 ≤ month) (h2 : month ≤ 12) :
    ((get_month_weeks year month).map WeekInfo.dates).flatten =
      (List.range (7 * (get_month_weeks year month).length)).map
        (fun j => mkCell ⟨year, month, 1⟩ (lastDayOfMonth year month)
          (addDays j (subDays (weekday ⟨year, month, 1⟩) ⟨year, month, 1⟩))) := by
  rw [get_month_weeks_eq year month hy h1 h2]
  rw [monthWeeksAux_eq, List.map_map, List.length_map, List.length_range]
  rw [← flatten_range_map]
  congr 1
  apply List.map_congr_left
  intro k _
  simp only [Function.comp_apply, mkWeekInfo_dates]
  apply List.map_congr_left
  intro i _
  rw [← addDays_add]
  have hik : i + 7 * k = 7 * k + i := by omega
  rw [hik]

/-- Pointwise reindexing of a `range'` map. -/
theorem map_range'_shift {α : Type} (n : ℕ) :
    ∀ (a b : ℕ) (f g : ℕ → α), (∀ i, i < n → f (a + i) = g (b + i)) →
      (List.range' a n).map f = (List.range' b n).map g := by
  induction n with
  | zero => intro a b f g _; rfl
  | succ m ih =>
    intro a b f g hp
    rw [List.range'_succ, List.range'_succ, List.map_cons, List.map_cons]
    refine List.cons_eq_cons.mpr ⟨?_, ?_⟩
    · have := hp 0 (by omega)
      simpa using this
    · apply ih
      intro i hi
      have := hp (i + 1) (by omega)
      have ha : a + (i + 1) = a + 1 + i := by omega
      have hb : b + (i + 1) = b + 1 + i := by omega
      rw [ha, hb] at this
      exact this

/-- Within a month, adding `i` days to the first stays on day `1 + i`. -/
theorem addDays_within_month (year month i : ℕ) (_hv : Valid (⟨year, month, 1⟩ : Date))
    (hi : i < daysInMonth year month) :
    addDays i ⟨year, month, 1⟩ = ⟨year, month, 1 + i⟩ := by
  induction i with
  | zero => rfl
  | succ k ih =>
    have hk := ih (by omega)
    have hstep : addDays (k + 1) (⟨year, month, 1⟩ : Date) =
        succD (addDays k ⟨year, month, 1⟩) := by
      simp [addDays, Function.iterate_succ_apply']
    rw [hstep, hk]
    unfold succD
    have hcond : (⟨year, month, 1 + k⟩ : Date).d < daysInMonth year month := by
      simp only
      omega
    rw [if_pos hcond]
    rfl

/-- Semantics of the cell built at offset `j` from the grid's starting
Monday. -/
theorem cellAt_spec (year month j : ℕ) (hy : 1 ≤ year) (h1 : 1 ≤ month) (h2 : month ≤ 12)
    (first last ws0 : Date) (hf : first = ⟨year, month, 1⟩)
    (hl : last = lastDayOfMonth year month) (hs0 : ws0 = subDays (weekday first) first) :
    (mkCell first last (addDays j ws0)).date = addDays j ws0 ∧ Valid (addDays j ws0) ∧
      toOrdinal (addDays j ws0) = toOrdinal first - weekday first + j ∧
      ((mkCell first last (addDays j ws0)).in_current_month = true ↔
        (weekday first ≤ j ∧ j < weekday first + daysInMonth year month)) ∧
      ((mkCell first last (addDays j ws0)).is_previous_month = true ↔ j < weekday first) ∧
      ((mkCell first last (addDays j ws0)).is_next_month = true ↔
        weekday first + daysInMonth year month ≤ j) := by
  have hv : Valid first := by rw [hf]; exact firstDay_valid year month hy h1 h2
  have hlv : Valid last := by rw [hl]; exact lastDay_valid year month hy h1 h2
  have hw := weekday_add_one_le _ hv
  have hs := toOrdinal_subDays (weekday first) _ hv hw
  rw [← hs0] at hs
  have ha := toOrdinal_addDays j _ hs.2
  have hlasto : toOrdinal last = toOrdinal first + daysInMonth year month - 1 := by
    rw [hl, hf, lastDayOfMonth_eq year month hy h1 h2, toOrdinal_mk, toOrdinal_mk]
    omega
  have hdim := daysInMonth_pos year month h1 h2
  refine ⟨rfl, ha.2, by omega, ?_, ?_, ?_⟩
  · show (dle first (addDays j ws0) && dle (addDays j ws0) last) = true ↔ _
    rw [Bool.and_eq_true, dle_iff_ord _ _ hv ha.2, dle_iff_ord _ _ ha.2 hlv]
    omega
  · show dlt (addDays j ws0) first = true ↔ _
    rw [dlt_iff_ord _ _ ha.2 hv]
    omega
  · show dlt last (addDays j ws0) = true ↔ _
    rw [dlt_iff_ord _ _ hlv ha.2]
    omega

/-- Walking `weekday first` days forward from the grid's starting Monday gets
back to the first of the month. -/
theorem addDays_weekday_start (year month : ℕ) (hy : 1 ≤ year) (h1 : 1 ≤ month)
    (h2 : month ≤ 12) :
    addDays (weekday ⟨year, month, 1⟩)
      (subDays (weekday ⟨year, month, 1⟩) ⟨year, month, 1⟩) = ⟨year, month, 1⟩ := by
  have hv := firstDay_valid year month hy h1 h2
  have hw := weekday_add_one_le _ hv
  have hs := toOrdinal_subDays (weekday ⟨year, month, 1⟩) _ hv hw
  have ha := toOrdinal_addDays (weekday ⟨year, month, 1⟩) _ hs.2
  apply toOrdinal_inj _ _ ha.2 hv
  omega

/-- The dates of the CURRENT cells of the grid, in traversal order, are
exactly day 1 .. day `daysInMonth` of `(year, month)`. -/
theorem current_cells_eq (year month : ℕ) (hy : 1 ≤ year) (h1 : 1 ≤ month) (h2 : month ≤ 12) :
    (((get_month_weeks year month).map WeekInfo.dates).flatten.filter
        (fun c => c.in_current_month)).map (fun c => c.date) =
      (List.range' 1 (daysInMonth year month)).map (fun d => (⟨year, month, d⟩ : Date)) := by
  have hrows := get_month_weeks_length year month hy h1 h2
  have hwd7 : weekday (⟨year, month, 1⟩ : Date) < 7 := weekday_lt _
  have hdimb := daysInMonth_pos year month h1 h2
  have hcell := fun j => cellAt_spec year month j hy h1 h2 ⟨year, month, 1⟩
    (lastDayOfMonth year month) (subDays (weekday ⟨year, month, 1⟩) ⟨year, month, 1⟩)
    rfl rfl rfl
  rw [month_cells_eq year month hy h1 h2]
  obtain ⟨pad, hpad⟩ : ∃ pad, 7 * (get_month_weeks year month).length =
      weekday ⟨year, month, 1⟩ + (daysInMonth year month + pad) :=
    ⟨7 * (get_month_weeks year month).length - weekday ⟨year, month, 1⟩ -
      daysInMonth year month, by omega⟩
  rw [hpad, List.range_eq_range']
  have e1 : List.range' 0 (weekday ⟨year, month, 1⟩ + (daysInMonth year month + pad)) =
      List.range' 0 (weekday ⟨year, month, 1⟩) ++
        List.range' (weekday ⟨year, month, 1⟩) (daysInMonth year month + pad) := by
    have h := List.range'_append 0 (weekday ⟨year, month, 1⟩)
      (daysInMonth year month + pad) 1
    simp only [Nat.zero_add, Nat.one_mul] at h
    rw [Nat.add_comm (daysInMonth year month + pad) (weekday ⟨year, month, 1⟩)] at h
    exact h.symm
  have e2 : List.range' (weekday ⟨year, month, 1⟩) (daysInMonth year month + pad) =
      List.range' (weekday ⟨year, month, 1⟩) (daysInMonth year month) ++
        List.range' (weekday ⟨year, month, 1⟩ + daysInMonth year month) pad := by
    have h := List.range'_append (weekday ⟨year, month, 1⟩) (daysInMonth year month) pad 1
    simp only [Nat.one_mul] at h
    rw [Nat.add_comm pad (daysInMonth year month)] at h
    exact h.symm
  rw [e1, e2, List.map_append, List.map_append, List.filter_append, List.filter_append]
  have hprev : List.filter (fun c => c.in_current_month)
      ((List.range' 0 (weekday ⟨year, month, 1⟩)).map
        (fun j => mkCell ⟨year, month, 1⟩ (lastDayOfMonth year month)
          (addDays j (subDays (weekday ⟨year, month, 1⟩) ⟨year, month, 1⟩)))) = [] := by
    rw [List.filter_eq_nil_iff]
    intro c hc
    rw [List.mem_map] at hc
    obtain ⟨j, hj, rfl⟩ := hc
    rw [List.mem_range'_1] at hj
    rw [(hcell j).2.2.2.1]
    omega
  have hnext : List.filter (fun c => c.in_current_month)
      ((List.range' (weekday ⟨year, month, 1⟩ + daysInMonth year month) pad).map
        (fun j => mkCell ⟨year, month, 1⟩ (lastDayOfMonth year month)
          (addDays j (subDays (weekday ⟨year, month, 1⟩) ⟨year, month, 1⟩)))) = [] := by
    rw [List.filter_eq_nil_iff]
    intro c hc
    rw [List.mem_map] at hc
    obtain ⟨j, hj, rfl⟩ := hc
    rw [List.mem_range'_1] at hj
    rw [(hcell j).2.2.2.1]
    omega
  have hmid : List.filter (fun c => c.in_current_month)
      ((List.range' (weekday ⟨year, month, 1⟩) (daysInMonth year month)).map
        (fun j => mkCell ⟨year, month, 1⟩ (lastDayOfMonth year month)
          (addDays j (subDays (weekday ⟨year, month, 1⟩) ⟨year, month, 1⟩)))) =
      (List.range' (weekday ⟨year, month, 1⟩) (daysInMonth year month)).map
        (fun j => mkCell ⟨year, month, 1⟩ (lastDayOfMonth year month)
          (addDays j (subDays (weekday ⟨year, month, 1⟩) ⟨year, month, 1⟩))) := by
    rw [List.filter_eq_self]
    intro c hc
    rw [List.mem_map] at hc
    obtain ⟨j, hj, rfl⟩ := hc
    rw [List.mem_range'_1] at hj
    rw [(hcell j).2.2.2.1]
    omega
  rw [hprev, hnext, hmid, List.nil_append, List.append_nil, List.map_map]
  apply map_range'_shift
  intro i hi
  simp only [Function.comp_apply]
  have hd : (mkCell ⟨year, month, 1⟩ (lastDayOfMonth year month)
      (addDays (weekday ⟨year, month, 1⟩ + i)
        (subDays (weekday ⟨year, month, 1⟩) ⟨year, month, 1⟩))).date =
      addDays (weekday ⟨year, month, 1⟩ + i)
        (subDays (weekday ⟨year, month, 1⟩) ⟨year, month, 1⟩) := rfl
  rw [hd]
  have hcomm : weekday (⟨year, month, 1⟩ : Date) + i = i + weekday ⟨year, month, 1⟩ := by
    omega
  rw [hcomm, addDays_add, addDays_weekday_start year month hy h1 h2,
    addDays_within_month year month i (firstDay_valid year month hy h1 h2) hi]

/-! ## Claims about the standard grid and the ISO week functions -/

/-- **C9** The closed-form `rows_needed` of `analyze_month_layout` (ceiling
division `(first_weekday + days_in_month + 6) / 7`) equals the number of week
rows produced by the Monday-walking loop of `get_month_weeks`. -/
theorem C9_rows_needed_refines_loop (year month : ℕ) (hy : 1 ≤ year) (h1 : 1 ≤ month)
    (h2 : month ≤ 12) :
    (analyze_month_layout year month).rows_needed = (get_month_weeks year month).length := by
  have ha : (analyze_month_layout year month).rows_needed =
      (weekday ⟨year, month, 1⟩ + (lastDayOfMonth year month).d + 6) / 7 := rfl
  rw [get_month_weeks_length year month hy h1 h2, ha,
    lastDayOfMonth_eq year month hy h1 h2]
  have hdim := daysInMonth_pos year month h1 h2
  have hd : (⟨year, month, daysInMonth year month⟩ : Date).d = daysInMonth year month := rfl
  rw [hd]
  omega

/-- **C9 witness** at March 2026. -/
theorem C9_rows_needed_refines_loop_witness :
    (analyze_month_layout 2026 3).rows_needed = (get_month_weeks 2026 3).length :=
  C9_rows_needed_refines_loop 2026 3 (by norm_num) (by norm_num) (by norm_num)

/-- **C1** For every valid `(year, month)`: `rows_needed` is 4, 5 or 6; every
week row has exactly 7 day cells; the dates of the CURRENT cells are exactly
the days 1..n of the month, each once (as an ordered list); and the
previous/next flags hold exactly for dates before the first, resp. after the
last, day of the month. -/
theorem C1_month_grid_invariants (year month : ℕ) (hy : 1 ≤ year) (h1 : 1 ≤ month)
    (h2 : month ≤ 12) :
    ((generate_calendar_grid year month).layout.rows_needed = 4 ∨
      (generate_calendar_grid year month).layout.rows_needed = 5 ∨
      (generate_calendar_grid year month).layout.rows_needed = 6) ∧
    (∀ w ∈ (generate_calendar_grid year month).weeks, w.dates.length = 7) ∧
    ((((generate_calendar_grid year month).weeks.map WeekInfo.dates).flatten.filter
        (fun c => c.in_current_month)).map (fun c => c.date) =
      (List.range' 1 (daysInMonth year month)).map (fun d => (⟨year, month, d⟩ : Date))) ∧
    (∀ c ∈ ((generate_calendar_grid year month).weeks.map WeekInfo.dates).flatten,
      (c.is_previous_month = true ↔ toOrdinal c.date < toOrdinal ⟨year, month, 1⟩) ∧
      (c.is_next_month = true ↔
        toOrdinal ⟨year, month, daysInMonth year month⟩ < toOrdinal c.date)) := by
  have hweeks : (generate_calendar_grid year month).weeks = get_month_weeks year month := rfl
  have hlay : (generate_calendar_grid year month).layout = analyze_month_layout year month :=
    rfl
  have hwd7 : weekday (⟨year, month, 1⟩ : Date) < 7 := weekday_lt _
  have hdim := daysInMonth_pos year month h1 h2
  have hcell := fun j => cellAt_spec year month j hy h1 h2 ⟨year, month, 1⟩
    (lastDayOfMonth year month) (subDays (weekday ⟨year, month, 1⟩) ⟨year, month, 1⟩)
    rfl rfl rfl
  refine ⟨?_, ?_, ?_, ?_⟩
  · rw [hlay, C9_rows_needed_refines_loop year month hy h1 h2,
      get_month_weeks_length year month hy h1 h2]
    omega
  · intro w hw
    rw [hweeks, get_month_weeks_eq year month hy h1 h2, monthWeeksAux_eq,
      List.mem_map] at hw
    obtain ⟨k, _, rfl⟩ := hw
    rw [mkWeekInfo_dates, List.length_map, List.length_range]
  · rw [hweeks]
    exact current_cells_eq year month hy h1 h2
  · intro c hc
    rw [hweeks, month_cells_eq year month hy h1 h2, List.mem_map] at hc
    obtain ⟨j, _, rfl⟩ := hc
    have hs := hcell j
    have hfirsto := (firstDay_valid year month hy h1 h2)
    have hword := weekday_add_one_le _ hfirsto
    have hlasto : toOrdinal (⟨year, month, daysInMonth year month⟩ : Date) =
        toOrdinal ⟨year, month, 1⟩ + daysInMonth year month - 1 := by
      rw [toOrdinal_mk, toOrdinal_mk]
      omega
    constructor
    · rw [hs.2.2.2.2.1, hs.1, hs.2.2.1]
      omega
    · rw [hs.2.2.2.2.2, hs.1, hs.2.2.1, hlasto]
      omega

/-- **C1 witness** at February 2026. -/
theorem C1_month_grid_invariants_witness :
    ((generate_calendar_grid 2026 2).layout.rows_needed = 4 ∨
      (generate_calendar_grid 2026 2).layout.rows_needed = 5 ∨
      (generate_calendar_grid 2026 2).layout.rows_needed = 6) ∧
    (∀ w ∈ (generate_calendar_grid 2026 2).weeks, w.dates.length = 7) ∧
    ((((generate_calendar_grid 2026 2).weeks.map WeekInfo.dates).flatten.filter
        (fun c => c.in_current_month)).map (fun c => c.date) =
      (List.range' 1 (daysInMonth 2026 2)).map (fun d => (⟨2026, 2, d⟩ : Date))) ∧
    (∀ c ∈ ((generate_calendar_grid 2026 2).weeks.map WeekInfo.dates).flatten,
      (c.is_previous_month = true ↔ toOrdinal c.date < toOrdinal ⟨2026, 2, 1⟩) ∧
      (c.is_next_month = true ↔
        toOrdinal ⟨2026, 2, daysInMonth 2026 2⟩ < toOrdinal c.date)) :=
  C1_month_grid_invariants 2026 2 (by norm_num) (by norm_num) (by norm_num)

/-- **C2** `get_iso_week` computes the ISO 8601 `(iso_year, week_number)`
pair (the reference Thursday-rule definition `isoWeekRef`) on every valid
date, and in particular `get_iso_week(2026-01-01) = (2026, 1)` and
`get_iso_week(2025-12-29) = (2026, 1)`. -/
theorem C2_get_iso_week_iso8601 :
    (∀ x : Date, Valid x → get_iso_week x = isoWeekRef x) ∧
      get_iso_week ⟨2026, 1, 1⟩ = (2026, 1) ∧
      get_iso_week ⟨2025, 12, 29⟩ = (2026, 1) := by
  refine ⟨get_iso_week_eq_ref, ?_, ?_⟩
  · decide
  · decide

/-- **C2 witness**: the universal part applied at 2027-01-01 (an ISO week-53
date). -/
theorem C2_get_iso_week_iso8601_witness :
    get_iso_week ⟨2027, 1, 1⟩ = isoWeekRef ⟨2027, 1, 1⟩ :=
  C2_get_iso_week_iso8601.1 ⟨2027, 1, 1⟩ (by decide)

/-- **C8** Round trip of the week functions: for every valid date `d`, if
`get_iso_week d = (iso_year, week)` then `get_week_start_date iso_year week`
is at most `d`, at most 6 days before `d`, and is a Monday. -/
theorem C8_week_start_roundtrip (x : Date) (h : Valid x) :
    ∃ iy w : ℕ, get_iso_week x = ((iy : ℤ), (w : ℤ)) ∧
      toOrdinal (get_week_start_date iy w) ≤ toOrdinal x ∧
      toOrdinal x ≤ toOrdinal (get_week_start_date iy w) + 6 ∧
      weekday (get_week_start_date iy w) = 0 := by
  obtain ⟨iy, w, he, hiy, hw, hlo, hhi, hform⟩ := get_iso_week_spec x h
  have hgw := get_week_start_date_spec iy w hiy hw
  have hmon := (isoweek1monday_spec iy).2.2
  have hwdeq : weekday (get_week_start_date iy w) =
      (toOrdinal (get_week_start_date iy w) + 6) % 7 := rfl
  refine ⟨iy, w, he, ?_, ?_, ?_⟩
  · have := hgw.1
    omega
  · have := hgw.1
    omega
  · rw [hwdeq]
    have := hgw.1
    omega

/-- **C8 witness** at 2026-01-01. -/
theorem C8_week_start_roundtrip_witness :
    ∃ iy w : ℕ, get_iso_week ⟨2026, 1, 1⟩ = ((iy : ℤ), (w : ℤ)) ∧
      toOrdinal (get_week_start_date iy w) ≤ toOrdinal ⟨2026, 1, 1⟩ ∧
      toOrdinal ⟨2026, 1, 1⟩ ≤ toOrdinal (get_week_start_date iy w) + 6 ∧
      weekday (get_week_start_date iy w) = 0 :=
  C8_week_start_roundtrip ⟨2026, 1, 1⟩ (by decide)

/-! ## `calendar_generator.py`: photo assignment and the perpetual grid

The photo manifest (`CalendarGenerator._photo_info`, loaded from
`photo_information.txt` by an external collaborator) is a month-keyed map of
ordered filename lists, embedded as `String → Option (List String)`. The file
system (`Path.exists()`) is an out-of-scope collaborator, embedded as a
boolean oracle on path strings; `path.resolve()` is the identity on the path
string. -/

/-- Zero-padded two-digit rendering (`f"{n:02d}"`, for `n < 100`). -/
def pad2 (n : ℕ) : String := if n < 10 then "0" ++ toString n else toString n

/-- The `f"{year}{month:02d}"` manifest month key. -/
def monthKey (year month : ℕ) : String := toString year ++ pad2 month

/-- `date.strftime('%Y-%m-%d')` (years in scope are four-digit). -/
def fmtDate (x : Date) : String := toString x.y ++ "-" ++ pad2 x.m ++ "-" ++ pad2 x.d

/-- The `for photo_dir in photo_dirs` loop shared by `find_photo_for_date`
and `find_photo_for_date_with_key`: in each directory, first the web
thumbnail (when `web_optimized` and not `use_absolute_paths`), then the
original photo. -/
def findInDirs (ex : String → Bool) (filename : String)
    (use_absolute_paths web_optimized : Bool) : List String → Option String
  | [] => none
  | photo_dir :: rest =>
    let photo_path := photo_dir ++ "/" ++ filename ++ ".jpg"
    let web_photo_path := photo_dir ++ "/web/" ++ filename ++ ".jpg"
    if web_optimized && !use_absolute_paths && ex web_photo_path then
      some ("../../../../" ++ web_photo_path)
    else if ex photo_path then
      (if use_absolute_paths then some photo_path
       else some ("../../../../" ++ photo_path))
    else findInDirs ex filename use_absolute_paths web_optimized rest

/-- `CalendarGenerator.find_photo_for_date(target_date, photo_dirs, ...)`:
ordinal manifest lookup (`photo_index = day_of_month - 1`), then the
directory probe; `None` when the month key is absent, the index is out of
range, or no file is found. -/
def find_photo_for_date (info : String → Option (List String)) (ex : String → Bool)
    (target_date : Date) (photo_dirs : List String)
    (use_absolute_paths web_optimized : Bool) : Option String :=
  let month_key := monthKey target_date.y target_date.m
  let day_of_month := target_date.d
  match info month_key with
  | some photos_for_month =>
    let photo_index := day_of_month - 1
    if hidx : photo_index < photos_for_month.length then
      findInDirs ex (photos_for_month.get ⟨photo_index, hidx⟩)
        use_absolute_paths web_optimized photo_dirs
    else none
  | none => none

/-- `CalendarGenerator.find_photo_for_date_with_key`: as
`find_photo_for_date` but with an optional month-key override (used for
February 29 in perpetual calendars). -/
def find_photo_for_date_with_key (info : String → Option (List String)) (ex : String → Bool)
    (target_date : Date) (photo_dirs : List String)
    (use_absolute_paths web_optimized : Bool) (month_key_override : Option String) :
    Option String :=
  let month_key := match month_key_override with
    | some k => k
    | none => monthKey target_date.y target_date.m
  let day_of_month := target_date.d
  match info month_key with
  | some photos_for_month =>
    let photo_index := day_of_month - 1
    if hidx : photo_index < photos_for_month.length then
      findInDirs ex (photos_for_month.get ⟨photo_index, hidx⟩)
        use_absolute_paths web_optimized photo_dirs
    else none
  | none => none

/-- The default photo directories for a month
(`photos/{year}/{month:02d}` and its `-processed` variant). -/
def defaultPhotoDirs (year month : ℕ) : List String :=
  ["photos/" ++ toString year ++ "/" ++ pad2 month,
   "photos/" ++ toString year ++ "/" ++ pad2 month ++ "-processed"]

/-- Manifest-side missing condition of the spec: month key absent, or the
0-based ordinal `day - 1` not below the month's entry count. -/
def manifestMissB (info : String → Option (List String)) (month_key : String) (day : ℕ) :
    Bool :=
  match info month_key with
  | none => true
  | some l => decide (l.length ≤ day - 1)

/-- The photo path `generate_month_data` assigns to one grid cell: cells of
the primary month use the primary directories, overflow cells the
directories of their own month. -/
def cellImagePath (info : String → Option (List String)) (ex : String → Bool)
    (year month : ℕ) (photo_dirs : List String) (use_absolute_paths web_optimized : Bool)
    (c : DayCell) : Option String :=
  if c.date.m = month ∧ c.date.y = year then
    find_photo_for_date info ex c.date photo_dirs use_absolute_paths web_optimized
  else
    find_photo_for_date info ex c.date (defaultPhotoDirs c.date.y c.date.m)
      use_absolute_paths web_optimized

/-- The missing-photo dates `generate_month_data` collects over the whole
month: one `strftime('%Y-%m-%d')` entry per primary-month cell whose photo
lookup returned `None`, in grid traversal order. -/
def missingPhotos (info : String → Option (List String)) (ex : String → Bool)
    (year month : ℕ) (photo_dirs : List String) (use_absolute_paths web_optimized : Bool) :
    List String :=
  (((get_month_weeks year month).map WeekInfo.dates).flatten.filter
    (fun c => decide (c.date.m = month ∧ c.date.y = year) &&
      (cellImagePath info ex year month photo_dirs use_absolute_paths web_optimized
        c).isNone)).map (fun c => fmtDate c.date)

/-- `CalendarGenerator.generate_month_data(year, month)`: the grid with a
photo path per cell (location/world-map/iNaturalist decoration and template
fields are out-of-scope collaborators). The `FileNotFoundError` raised when
primary-month photos are missing is `Except.error` carrying the batch of
missing dates its message lists. -/
def generate_month_data (info : String → Option (List String)) (ex : String → Bool)
    (year month : ℕ) (use_absolute_paths web_optimized : Bool) :
    Except (List String) (GridData × List (List (DayCell × Option String))) :=
  let grid_data := generate_calendar_grid year month
  let photo_dirs := defaultPhotoDirs year month
  let weeks := grid_data.weeks.map (fun w => w.dates.map (fun c =>
    (c, cellImagePath info ex year month photo_dirs use_absolute_paths web_optimized c)))
  let missing_photos :=
    missingPhotos info ex year month photo_dirs use_absolute_paths web_optimized
  if missing_photos.isEmpty then Except.ok (grid_data, weeks)
  else Except.error missing_photos

/-- One day cell of the perpetual grid (`day` is `""`, i.e. `none`, on the
padding cells). -/
structure PDayCell where
  date : Option Date
  day : Option ℕ
  is_current_month : Bool
  is_previous_month : Bool
  is_next_month : Bool
  image_path : Option String
  deriving DecidableEq, Repr

/-- One week row of the perpetual grid. -/
structure PWeek where
  dates : List PDayCell
  deriving DecidableEq, Repr

/-- The padding cell appended to fill the final perpetual week row. -/
def emptyPDayCell : PDayCell :=
  { date := none, day := none, is_current_month := false, is_previous_month := false,
    is_next_month := false, image_path := none }

/-- `days_in_month` of the perpetual grid: the calendar length for
`source_year`, except that February always reserves a 29th slot. -/
def perpetual_days_in_month (source_year month : ℕ) : ℕ :=
  let d := daysInMonth source_year month
  if month = 2 then 29 else d

/-- Perpetual grid column count: 7 for 31-day months, else 6. -/
def perpetual_columns (source_year month : ℕ) : ℕ :=
  if perpetual_days_in_month source_year month = 31 then 7 else 6

/-- The day cell built in the `for day in range(1, days_in_month + 1)` loop
of `generate_perpetual_month_data`: February 29 of a non-leap source year
takes the explicit override path — a known-leap-year (2024) date object plus
a `{source_year}{month:02d}` month-key override for the photo lookup —
instead of constructing the invalid `source_year-02-29`. -/
def perpetualDayCell (info : String → Option (List String)) (ex : String → Bool)
    (month source_year : ℕ) (photo_dirs : List String)
    (use_absolute_paths web_optimized : Bool) (day : ℕ) : PDayCell :=
  let day_date : Date :=
    if month = 2 ∧ day = 29 ∧ ¬ isLeap source_year = true then ⟨2024, month, day⟩
    else ⟨source_year, month, day⟩
  { date := some day_date
    day := some day
    is_current_month := true
    is_previous_month := false
    is_next_month := false
    image_path :=
      if month = 2 ∧ day = 29 ∧ ¬ isLeap source_year = true then
        find_photo_for_date_with_key info ex day_date photo_dirs use_absolute_paths
          web_optimized (some (monthKey source_year month))
      else
        find_photo_for_date info ex day_date photo_dirs use_absolute_paths web_optimized }

/-- The week-chunking loop of `generate_perpetual_month_data`: cells are
appended in day order, a week row is flushed whenever `columns` cells have
accumulated, and a final partial row is padded with empty cells. -/
def perpetualChunk (columns : ℕ) : List PDayCell → List PDayCell → List PWeek
  | current_week, [] =>
    if current_week.isEmpty then []
    else [⟨current_week ++ List.replicate (columns - current_week.length) emptyPDayCell⟩]
  | current_week, c :: rest =>
    let cw := current_week ++ [c]
    if cw.length = columns then ⟨cw⟩ :: perpetualChunk columns [] rest
    else perpetualChunk columns cw rest

/-- The week rows of the perpetual grid for `(month, source_year)`. -/
def perpetual_weeks (info : String → Option (List String)) (ex : String → Bool)
    (month source_year : ℕ) (photo_dirs : List String)
    (use_absolute_paths web_optimized : Bool) : List PWeek :=
  perpetualChunk (perpetual_columns source_year month) []
    ((List.range' 1 (perpetual_days_in_month source_year month)).map
      (perpetualDayCell info ex month source_year photo_dirs use_absolute_paths
        web_optimized))

/-- The missing-photo dates collected by the perpetual day loop. -/
def perpetual_missing (info : String → Option (List String)) (ex : String → Bool)
    (month source_year : ℕ) (photo_dirs : List String)
    (use_absolute_paths web_optimized : Bool) : List String :=
  (((List.range' 1 (perpetual_days_in_month source_year month)).map
    (perpetualDayCell info ex month source_year photo_dirs use_absolute_paths
      web_optimized)).filter (fun c => c.image_path.isNone)).map
    (fun c => (c.date.map fmtDate).getD (""))

/-- The two fixed layout presets of the perpetual grid, selected by
`days_in_month == 31`. -/
structure PerpetualLayout where
  columns : ℕ
  rows_needed : ℕ
  row_height : ℚ
  photo_width : ℚ
  photo_height : ℚ
  days_in_month : ℕ
  deriving DecidableEq, Repr

/-- The `layout_info` of `generate_perpetual_month_data` (rows are always
5; photo sizes differ between the 7-column and 6-column presets). -/
def perpetual_layout (source_year month : ℕ) : PerpetualLayout :=
  let dim := perpetual_days_in_month source_year month
  if dim = 31 then
    { columns := 7, rows_needed := 5, row_height := 49.3, photo_width := 56.0,
      photo_height := 46.8, days_in_month := dim }
  else
    { columns := 6, rows_needed := 5, row_height := 49.3, photo_width := 65.0,
      photo_height := 46.8, days_in_month := dim }

/-- `CalendarGenerator.generate_perpetual_month_data(month, source_year)`:
the grid-construction core (location/map/i18n decoration omitted), with the
missing-photo abort as `Except.error`. -/
def generate_perpetual_month_data (info : String → Option (List String))
    (ex : String → Bool) (month source_year : ℕ)
    (use_absolute_paths web_optimized : Bool) :
    Except (List String) (List PWeek × PerpetualLayout) :=
  let photo_dirs := defaultPhotoDirs source_year month
  let weeks := perpetual_weeks info ex month source_year photo_dirs use_absolute_paths
    web_optimized
  let missing_photos := perpetual_missing info ex month source_year photo_dirs
    use_absolute_paths web_optimized
  if missing_photos.isEmpty then
    Except.ok (weeks, perpetual_layout source_year month)
  else Except.error missing_photos

/-! ## Photo lookup and abort behaviour -/

theorem findInDirs_isSome (ex : String → Bool) (fn : String) (ab web : Bool)
    (dirs : List String) (hex : ∀ s, ex s = true) (hdirs : dirs ≠ []) :
    ∃ p, findInDirs ex fn ab web dirs = some p := by
  cases dirs with
  | nil => exact absurd rfl hdirs
  | cons a rest =>
    unfold findInDirs
    simp only [hex, Bool.and_true]
    split_ifs <;> exact ⟨_, rfl⟩

theorem find_photo_for_date_none_iff (info : String → Option (List String))
    (ex : String → Bool) (d : Date) (dirs : List String) (ab web : Bool)
    (hex : ∀ s, ex s = true) (hdirs : dirs ≠ []) :
    (find_photo_for_date info ex d dirs ab web = none ↔
      manifestMissB info (monthKey d.y d.m) d.d = true) := by
  unfold find_photo_for_date manifestMissB
  cases hinfo : info (monthKey d.y d.m) with
  | none => simp [hinfo]
  | some l =>
    simp only [hinfo]
    by_cases hidx : d.d - 1 < l.length
    · rw [dif_pos hidx]
      obtain ⟨p, hp⟩ := findInDirs_isSome ex _ ab web dirs hex hdirs
      rw [hp]
      simp only [reduceCtorEq, false_iff, decide_eq_true_eq]
      omega
    · rw [dif_neg hidx]
      simp only [true_iff, decide_eq_true_eq]
      omega

theorem find_photo_with_key_none_iff (info : String → Option (List String))
    (ex : String → Bool) (d : Date) (dirs : List String) (ab web : Bool) (key : String)
    (hex : ∀ s, ex s = true) (hdirs : dirs ≠ []) :
    (find_photo_for_date_with_key info ex d dirs ab web (some key) = none ↔
      manifestMissB info key d.d = true) := by
  unfold find_photo_for_date_with_key manifestMissB
  cases hinfo : info key with
  | none => simp [hinfo]
  | some l =>
    simp only [hinfo]
    by_cases hidx : d.d - 1 < l.length
    · rw [dif_pos hidx]
      obtain ⟨p, hp⟩ := findInDirs_isSome ex _ ab web dirs hex hdirs
      rw [hp]
      simp only [reduceCtorEq, false_iff, decide_eq_true_eq]
      omega
    · rw [dif_neg hidx]
      simp only [true_iff, decide_eq_true_eq]
      omega

/-- On grid cells, the code's primary-month test (`date.month == month and
date.year == year`) coincides with the CURRENT-membership flag. -/
theorem in_current_iff_month_year (year month : ℕ) (hy : 1 ≤ year) (h1 : 1 ≤ month)
    (h2 : month ≤ 12) :
    ∀ c ∈ ((get_month_weeks year month).map WeekInfo.dates).flatten,
      ((c.date.m = month ∧ c.date.y = year) ↔ c.in_current_month = true) := by
  intro c hc
  rw [month_cells_eq year month hy h1 h2, List.mem_map] at hc
  obtain ⟨j, hj, rfl⟩ := hc
  have hs := cellAt_spec year month j hy h1 h2 ⟨year, month, 1⟩ (lastDayOfMonth year month)
    (subDays (weekday ⟨year, month, 1⟩) ⟨year, month, 1⟩) rfl rfl rfl
  have hwd7 : weekday (⟨year, month, 1⟩ : Date) < 7 := weekday_lt _
  have hdim := daysInMonth_pos year month h1 h2
  have hvf := firstDay_valid year month hy h1 h2
  have hwo := weekday_add_one_le _ hvf
  rw [hs.1, hs.2.2.2.1]
  constructor
  · intro ⟨hm, hyy⟩
    have hv := hs.2.1
    have hord := hs.2.2.1
    have e1 : toOrdinal (addDays j (subDays (weekday ⟨year, month, 1⟩) ⟨year, month, 1⟩)) =
        daysBeforeYear (addDays j (subDays (weekday ⟨year, month, 1⟩) ⟨year, month, 1⟩)).y +
        daysBeforeMonth (addDays j (subDays (weekday ⟨year, month, 1⟩) ⟨year, month, 1⟩)).y
          (addDays j (subDays (weekday ⟨year, month, 1⟩) ⟨year, month, 1⟩)).m +
        (addDays j (subDays (weekday ⟨year, month, 1⟩) ⟨year, month, 1⟩)).d := rfl
    have e2 : toOrdinal (⟨year, month, 1⟩ : Date) =
        daysBeforeYear year + daysBeforeMonth year month + 1 := rfl
    rw [hm, hyy] at e1
    have hd1 : 1 ≤ (addDays j (subDays (weekday ⟨year, month, 1⟩) ⟨year, month, 1⟩)).d :=
      hv.2.2.2.1
    have hd2 : (addDays j (subDays (weekday ⟨year, month, 1⟩) ⟨year, month, 1⟩)).d ≤
        daysInMonth year month := by
      have := hv.2.2.2.2
      rw [hm, hyy] at this
      exact this
    omega
  · intro ⟨hlo, hhi⟩
    have hj' : j = (j - weekday ⟨year, month, 1⟩) + weekday ⟨year, month, 1⟩ := by omega
    rw [hj', addDays_add, addDays_weekday_start year month hy h1 h2,
      addDays_within_month year month _ hvf (by omega)]
    exact ⟨rfl, rfl⟩

/-- Under a file system containing every manifest photo, the batch of
missing dates collected by `generate_month_data` is exactly the primary-month
cells whose manifest lookup misses. -/
theorem missingPhotos_manifest (info : String → Option (List String)) (ex : String → Bool)
    (year month : ℕ) (ab web : Bool) (hex : ∀ s, ex s = true) :
    missingPhotos info ex year month (defaultPhotoDirs year month) ab web =
      ((((get_month_weeks year month).map WeekInfo.dates).flatten.filter
        (fun c => decide (c.date.m = month ∧ c.date.y = year) &&
          manifestMissB info (monthKey year month) c.date.d)).map
        (fun c => fmtDate c.date)) := by
  unfold missingPhotos
  congr 1
  apply List.filter_congr
  intro c _
  by_cases hcm : c.date.m = month ∧ c.date.y = year
  · have hdec : decide (c.date.m = month ∧ c.date.y = year) = true := by
      simp [hcm.1, hcm.2]
    rw [hdec, Bool.true_and, Bool.true_and]
    have hpath : cellImagePath info ex year month (defaultPhotoDirs year month) ab web c =
        find_photo_for_date info ex c.date (defaultPhotoDirs year month) ab web := by
      unfold cellImagePath
      rw [if_pos hcm]
    have hiff := find_photo_for_date_none_iff info ex c.date (defaultPhotoDirs year month)
      ab web hex (by simp [defaultPhotoDirs])
    have hkey : monthKey c.date.y c.date.m = monthKey year month := by
      rw [hcm.1, hcm.2]
    rw [hkey] at hiff
    rw [hpath, Bool.eq_iff_iff, Option.isNone_iff_eq_none]
    exact hiff
  · have hdec : decide (c.date.m = month ∧ c.date.y = year) = false := by
      simpa using hcm
    rw [hdec, Bool.false_and, Bool.false_and]

/-- **C3** Under a file system containing the manifest's photos: a photo
lookup misses exactly when the month key is absent or the 0-based ordinal
`day - 1` is not below the month's entry count (`manifestMissB`); the
primary-month test used by the abort loop agrees with CURRENT membership;
the collected batch is exactly the primary-month cells with manifest misses,
in grid order; and the build aborts with that whole batch exactly when it is
nonempty — overflow cells never contribute to it. -/
theorem C3_missing_photo_batch_abort (info : String → Option (List String))
    (ex : String → Bool) (year month : ℕ) (ab web : Bool)
    (hy : 1 ≤ year) (h1 : 1 ≤ month) (h2 : month ≤ 12) (hex : ∀ s, ex s = true) :
    (∀ (d : Date) (dirs : List String), dirs ≠ [] →
      (find_photo_for_date info ex d dirs ab web = none ↔
        manifestMissB info (monthKey d.y d.m) d.d = true)) ∧
    (∀ c ∈ ((get_month_weeks year month).map WeekInfo.dates).flatten,
      ((c.date.m = month ∧ c.date.y = year) ↔ c.in_current_month = true)) ∧
    (missingPhotos info ex year month (defaultPhotoDirs year month) ab web =
      ((((get_month_weeks year month).map WeekInfo.dates).flatten.filter
        (fun c => decide (c.date.m = month ∧ c.date.y = year) &&
          manifestMissB info (monthKey year month) c.date.d)).map
        (fun c => fmtDate c.date))) ∧
    (missingPhotos info ex year month (defaultPhotoDirs year month) ab web = [] →
      ∃ v, generate_month_data info ex year month ab web = Except.ok v) ∧
    (missingPhotos info ex year month (defaultPhotoDirs year month) ab web ≠ [] →
      generate_month_data info ex year month ab web =
        Except.error (missingPhotos info ex year month (defaultPhotoDirs year month) ab web)) := by
  refine ⟨fun d dirs hdirs => find_photo_for_date_none_iff info ex d dirs ab web hex hdirs,
    in_current_iff_month_year year month hy h1 h2,
    missingPhotos_manifest info ex year month ab web hex, ?_, ?_⟩
  · intro hempty
    simp only [generate_month_data]
    rw [if_pos (List.isEmpty_iff.2 hempty)]
    exact ⟨_, rfl⟩
  · intro hne
    simp only [generate_month_data]
    rw [if_neg (fun hc => hne (List.isEmpty_iff.1 hc))]

/-- **C3 witness** at January 2026 with a 30-entry manifest (day 31
missing) and an all-true file-system oracle. -/
theorem C3_missing_photo_batch_abort_witness :
    (∀ (d : Date) (dirs : List String), dirs ≠ [] →
      (find_photo_for_date (fun k => if k = "202601" then
          some (List.replicate 30 "p") else none) (fun _ => true) d dirs false false = none ↔
        manifestMissB (fun k => if k = "202601" then some (List.replicate 30 "p") else none)
          (monthKey d.y d.m) d.d = true)) ∧
    (∀ c ∈ ((get_month_weeks 2026 1).map WeekInfo.dates).flatten,
      ((c.date.m = 1 ∧ c.date.y = 2026) ↔ c.in_current_month = true)) ∧
    (missingPhotos (fun k => if k = "202601" then some (List.replicate 30 "p") else none)
        (fun _ => true) 2026 1 (defaultPhotoDirs 2026 1) false false =
      ((((get_month_weeks 2026 1).map WeekInfo.dates).flatten.filter
        (fun c => decide (c.date.m = 1 ∧ c.date.y = 2026) &&
          manifestMissB (fun k => if k = "202601" then some (List.replicate 30 "p") else none)
            (monthKey 2026 1) c.date.d)).map (fun c => fmtDate c.date))) ∧
    (missingPhotos (fun k => if k = "202601" then some (List.replicate 30 "p") else none)
        (fun _ => true) 2026 1 (defaultPhotoDirs 2026 1) false false = [] →
      ∃ v, generate_month_data (fun k => if k = "202601" then
        some (List.replicate 30 "p") else none) (fun _ => true) 2026 1 false false =
          Except.ok v) ∧
    (missingPhotos (fun k => if k = "202601" then some (List.replicate 30 "p") else none)
        (fun _ => true) 2026 1 (defaultPhotoDirs 2026 1) false false ≠ [] →
      generate_month_data (fun k => if k = "202601" then
        some (List.replicate 30 "p") else none) (fun _ => true) 2026 1 false false =
          Except.error (missingPhotos (fun k => if k = "202601" then
            some (List.replicate 30 "p") else none) (fun _ => true) 2026 1
            (defaultPhotoDirs 2026 1) false false)) :=
  C3_missing_photo_batch_abort (fun k => if k = "202601" then
    some (List.replicate 30 "p") else none) (fun _ => true) 2026 1 false false
    (by norm_num) (by norm_num) (by norm_num) (fun _ => rfl)

/-! ## Perpetual grid structure -/

set_option maxHeartbeats 1000000 in
/-- Shape of the perpetual week rows: always 5 rows of `columns` cells. -/
theorem perpetual_weeks_shape (info : String → Option (List String)) (ex : String → Bool)
    (month source_year : ℕ) (photo_dirs : List String) (ab web : Bool)
    (h1 : 1 ≤ month) (h2 : month ≤ 12) :
    (perpetual_weeks info ex month source_year photo_dirs ab web).map
      (fun w => w.dates.length) =
      List.replicate 5 (perpetual_columns source_year month) := by
  interval_cases month <;> rfl

set_option maxHeartbeats 1600000 in
/-- The perpetual grid's cells, flattened: the day cells 1..days_in_month in
order, followed only by the final row's padding. -/
theorem perpetual_weeks_flatten (info : String → Option (List String)) (ex : String → Bool)
    (month source_year : ℕ) (photo_dirs : List String) (ab web : Bool)
    (h1 : 1 ≤ month) (h2 : month ≤ 12) :
    ((perpetual_weeks info ex month source_year photo_dirs ab web).map PWeek.dates).flatten =
      (List.range' 1 (perpetual_days_in_month source_year month)).map
        (perpetualDayCell info ex month source_year photo_dirs ab web) ++
      List.replicate (5 * perpetual_columns source_year month -
        perpetual_days_in_month source_year month) emptyPDayCell := by
  interval_cases month <;> rfl

/-- **C4** For every month and source year, the perpetual grid uses the
calendar month length except that February is forced to 29 days; 7 columns
exactly for 31-day months, else 6; always 5 rows; day cells are emitted in
pure day order 1..days_in_month (each flagged CURRENT, never
previous/next), and the only other cells are dateless empty padding cells at
the end of the last row. -/
theorem C4_perpetual_grid_shape (info : String → Option (List String)) (ex : String → Bool)
    (month source_year : ℕ) (ab web : Bool) (h1 : 1 ≤ month) (h2 : month ≤ 12) :
    (perpetual_days_in_month source_year month =
      if month = 2 then 29 else daysInMonth source_year month) ∧
    (perpetual_columns source_year month =
      if perpetual_days_in_month source_year month = 31 then 7 else 6) ∧
    (perpetual_layout source_year month).rows_needed = 5 ∧
    (perpetual_layout source_year month).columns = perpetual_columns source_year month ∧
    ((perpetual_weeks info ex month source_year (defaultPhotoDirs source_year month) ab
      web).map (fun w => w.dates.length) =
      List.replicate 5 (perpetual_columns source_year month)) ∧
    (((perpetual_weeks info ex month source_year (defaultPhotoDirs source_year month) ab
        web).map PWeek.dates).flatten =
      (List.range' 1 (perpetual_days_in_month source_year month)).map
        (perpetualDayCell info ex month source_year (defaultPhotoDirs source_year month)
          ab web) ++
      List.replicate (5 * perpetual_columns source_year month -
        perpetual_days_in_month source_year month) emptyPDayCell) ∧
    (∀ day : ℕ,
      (perpetualDayCell info ex month source_year (defaultPhotoDirs source_year month)
        ab web day).day = some day ∧
      (perpetualDayCell info ex month source_year (defaultPhotoDirs source_year month)
        ab web day).is_current_month = true ∧
      (perpetualDayCell info ex month source_year (defaultPhotoDirs source_year month)
        ab web day).is_previous_month = false ∧
      (perpetualDayCell info ex month source_year (defaultPhotoDirs source_year month)
        ab web day).is_next_month = false) ∧
    (emptyPDayCell.date = none ∧ emptyPDayCell.day = none ∧
      emptyPDayCell.is_current_month = false ∧ emptyPDayCell.is_previous_month = false ∧
      emptyPDayCell.is_next_month = false ∧ emptyPDayCell.image_path = none) := by
  refine ⟨rfl, rfl, ?_, ?_,
    perpetual_weeks_shape info ex month source_year _ ab web h1 h2,
    perpetual_weeks_flatten info ex month source_year _ ab web h1 h2,
    fun day => ⟨rfl, rfl, rfl, rfl⟩, rfl, rfl, rfl, rfl, rfl, rfl⟩
  · simp only [perpetual_layout]
    split_ifs <;> rfl
  · simp only [perpetual_layout, perpetual_columns]
    split_ifs <;> rfl

/-- **C4 witness** at April from source year 2026. -/
theorem C4_perpetual_grid_shape_witness :
    (perpetual_days_in_month 2026 4 = if 4 = 2 then 29 else daysInMonth 2026 4) ∧
    (perpetual_columns 2026 4 = if perpetual_days_in_month 2026 4 = 31 then 7 else 6) ∧
    (perpetual_layout 2026 4).rows_needed = 5 ∧
    (perpetual_layout 2026 4).columns = perpetual_columns 2026 4 ∧
    ((perpetual_weeks (fun _ => none) (fun _ => false) 4 2026 (defaultPhotoDirs 2026 4)
      false false).map (fun w => w.dates.length) =
      List.replicate 5 (perpetual_columns 2026 4)) ∧
    (((perpetual_weeks (fun _ => none) (fun _ => false) 4 2026 (defaultPhotoDirs 2026 4)
        false false).map PWeek.dates).flatten =
      (List.range' 1 (perpetual_days_in_month 2026 4)).map
        (perpetualDayCell (fun _ => none) (fun _ => false) 4 2026 (defaultPhotoDirs 2026 4)
          false false) ++
      List.replicate (5 * perpetual_columns 2026 4 - perpetual_days_in_month 2026 4)
        emptyPDayCell) ∧
    (∀ day : ℕ,
      (perpetualDayCell (fun _ => none) (fun _ => false) 4 2026 (defaultPhotoDirs 2026 4)
        false false day).day = some day ∧
      (perpetualDayCell (fun _ => none) (fun _ => false) 4 2026 (defaultPhotoDirs 2026 4)
        false false day).is_current_month = true ∧
      (perpetualDayCell (fun _ => none) (fun _ => false) 4 2026 (defaultPhotoDirs 2026 4)
        false false day).is_previous_month = false ∧
      (perpetualDayCell (fun _ => none) (fun _ => false) 4 2026 (defaultPhotoDirs 2026 4)
        false false day).is_next_month = false) ∧
    (emptyPDayCell.date = none ∧ emptyPDayCell.day = none ∧
      emptyPDayCell.is_current_month = false ∧ emptyPDayCell.is_previous_month = false ∧
      emptyPDayCell.is_next_month = false ∧ emptyPDayCell.image_path = none) :=
  C4_perpetual_grid_shape (fun _ => none) (fun _ => false) 4 2026 false false
    (by norm_num) (by norm_num)

/-- **C5** For February with a non-leap source year, the perpetual grid
still produces the day-29 cell — via the explicit override path, carrying the
valid stand-in date 2024-02-29 — and that cell's photo is looked up through
`find_photo_for_date_with_key` with the override month key
`{source_year}02` at ordinal 29 (0-based index 28), succeeding exactly when
the manifest has at least 29 entries under that key. -/
theorem C5_perpetual_feb29_override (info : String → Option (List String))
    (ex : String → Bool) (source_year : ℕ) (ab web : Bool)
    (hleap : ¬ isLeap source_year = true) (hex : ∀ s, ex s = true) :
    ∃ c : PDayCell,
      (((perpetual_weeks info ex 2 source_year (defaultPhotoDirs source_year 2) ab
        web).map PWeek.dates).flatten).get? 28 = some c ∧
      c.day = some 29 ∧ c.date = some ⟨2024, 2, 29⟩ ∧
      c.image_path = find_photo_for_date_with_key info ex ⟨2024, 2, 29⟩
        (defaultPhotoDirs source_year 2) ab web (some (monthKey source_year 2)) ∧
      (c.image_path = none ↔ manifestMissB info (monthKey source_year 2) 29 = true) := by
  have hcell : perpetualDayCell info ex 2 source_year (defaultPhotoDirs source_year 2)
      ab web 29 =
      { date := some ⟨2024, 2, 29⟩, day := some 29, is_current_month := true,
        is_previous_month := false, is_next_month := false,
        image_path := find_photo_for_date_with_key info ex ⟨2024, 2, 29⟩
          (defaultPhotoDirs source_year 2) ab web (some (monthKey source_year 2)) } := by
    simp [perpetualDayCell, hleap]
  have hget : (((perpetual_weeks info ex 2 source_year (defaultPhotoDirs source_year 2)
      ab web).map PWeek.dates).flatten).get? 28 =
      some (perpetualDayCell info ex 2 source_year (defaultPhotoDirs source_year 2)
        ab web 29) := rfl
  rw [hget, hcell]
  refine ⟨_, rfl, rfl, rfl, rfl, ?_⟩
  have hiff := find_photo_with_key_none_iff info ex ⟨2024, 2, 29⟩
    (defaultPhotoDirs source_year 2) ab web (monthKey source_year 2) hex
    (by simp [defaultPhotoDirs])
  exact hiff

/-- **C5 witness** with source year 2027 (non-leap) and a 29-entry manifest
under the override key, which indeed renders as "202702". -/
theorem C5_perpetual_feb29_override_witness :
    (∃ c : PDayCell,
      (((perpetual_weeks (fun k => if k = "202702" then some (List.replicate 29 "ph")
          else none) (fun _ => true) 2 2027 (defaultPhotoDirs 2027 2) false
        false).map PWeek.dates).flatten).get? 28 = some c ∧
      c.day = some 29 ∧ c.date = some ⟨2024, 2, 29⟩ ∧
      c.image_path = find_photo_for_date_with_key (fun k => if k = "202702" then
          some (List.replicate 29 "ph") else none) (fun _ => true) ⟨2024, 2, 29⟩
        (defaultPhotoDirs 2027 2) false false (some (monthKey 2027 2)) ∧
      (c.image_path = none ↔ manifestMissB (fun k => if k = "202702" then
        some (List.replicate 29 "ph") else none) (monthKey 2027 2) 29 = true)) ∧
    monthKey 2027 2 = "202702" :=
  ⟨C5_perpetual_feb29_override (fun k => if k = "202702" then
      some (List.replicate 29 "ph") else none) (fun _ => true) 2027 false false
    (by decide) (fun _ => rfl), by decide⟩

/- Lean core marks the `Rat` arithmetic operations `@[irreducible]` (an
elaboration-performance measure; the kernel is unaffected by reducibility
attributes). The projection and coordinate-parser claims below evaluate
concrete rational arithmetic with `decide`, so we restore the default
reducibility of these operations. -/
set_option allowUnsafeReducibility true

attribute [semireducible] Rat.mul Rat.add Rat.sub Rat.div Rat.inv Rat.neg Rat.ofScientific

/-! ## `world_map_generator.py`: the Robinson projection

Floats are embedded as exact rationals (`math.pi` as the exact value of the
IEEE-754 double Python uses); `int()` is truncation toward zero, `round()`
is round-half-to-even. The claims settled here are tolerance claims (within
1 pixel) or index-range claims, both insensitive to double rounding error.
-/

/-- `SimpleWorldProjection.AA`: x-scale factors per 5° latitude band. -/
def AA : List ℚ :=
  [0.8487, 0.84751182, 0.84479598, 0.840213, 0.83359314, 0.8257851,
   0.814752, 0.80006949, 0.78216192, 0.76060494, 0.73658673, 0.7086645,
   0.67777182, 0.64475739, 0.60987582, 0.57134484, 0.52729731, 0.48562614,
   0.45167814]

/-- `SimpleWorldProjection.BB`: y-scale factors per 5° latitude band. -/
def BB : List ℚ :=
  [0, 0.0838426, 0.1676852, 0.2515278, 0.3353704, 0.419213,
   0.5030556, 0.5868982, 0.67182264, 0.75336633, 0.83518048, 0.91537187,
   0.99339958, 1.06872269, 1.14066505, 1.20841528, 1.27035062, 1.31998003,
   1.3523]

/-- Python `abs(x)`. -/
def pyAbs (q : ℚ) : ℚ := if q < 0 then -q else q

/-- Python `min(a, b)`. -/
def pyMin (a b : ℤ) : ℤ := if a ≤ b then a else b

/-- Python `int(x)`: truncation toward zero. -/
def pyInt (q : ℚ) : ℤ := if 0 ≤ q then ⌊q⌋ else -⌊-q⌋

/-- `math.pi`, the exact rational value of the IEEE-754 double. -/
def piFloat : ℚ := 884279719003555 / 281474976710656

/-- `-1 if v < 0 else 1` (the sign convention of `_robinson_project`). -/
def pySign (q : ℚ) : ℚ := if q < 0 then -1 else 1

/-- Python `round(x)`: round half to even. -/
def pyRound (q : ℚ) : ℤ :=
  if q - ⌊q⌋ < 1 / 2 then ⌊q⌋
  else if 1 / 2 < q - ⌊q⌋ then ⌊q⌋ + 1
  else if ⌊q⌋ % 2 = 0 then ⌊q⌋ else ⌊q⌋ + 1

/-- `low = math.floor(lat / 5) * 5`, then the (redundant) `if lat == 0:
low = 0` guard, as in `_robinson_project` (argument already `abs(lat)`). -/
def robinsonLow (latA : ℚ) : ℚ :=
  let low : ℚ := (⌊latA / 5⌋ : ℚ) * 5
  if latA = 0 then 0 else low

/-- `low_index = min(int(low / 5), len(AA) - 1)`. -/
def robinsonLowIndex (latA : ℚ) : ℤ := pyMin (pyInt (robinsonLow latA / 5)) 18

/-- `high_index = min(int((low + 5) / 5), len(AA) - 1)`. -/
def robinsonHighIndex (latA : ℚ) : ℤ := pyMin (pyInt ((robinsonLow latA + 5) / 5)) 18

/-- `ratio = (lat - low) / 5 if high != low else 0`. -/
def robinsonRatio (latA : ℚ) : ℚ :=
  if robinsonLow latA + 5 = robinsonLow latA then 0 else (latA - robinsonLow latA) / 5

/-- The interpolated `adj_aa` coefficient (indices shown nonnegative and in
bounds by claim C10, so `getD` never takes its default). -/
def robinsonAdjAA (latA : ℚ) : ℚ :=
  ((AA.getD (robinsonHighIndex latA).toNat 0 - AA.getD (robinsonLowIndex latA).toNat 0) *
    robinsonRatio latA) + AA.getD (robinsonLowIndex latA).toNat 0

/-- The interpolated `adj_bb` coefficient. -/
def robinsonAdjBB (latA : ℚ) : ℚ :=
  ((BB.getD (robinsonHighIndex latA).toNat 0 - BB.getD (robinsonLowIndex latA).toNat 0) *
    robinsonRatio latA) + BB.getD (robinsonLowIndex latA).toNat 0

/-- `SimpleWorldProjection._robinson_project(lng, lat)` (`earth_rad = 1`). -/
def robinson_project (lng lat : ℚ) : ℚ × ℚ :=
  let radian := piFloat / 180
  let lng_sign := pySign lng
  let lat_sign := pySign lat
  let lngA := pyAbs lng
  let latA := pyAbs lat
  (robinsonAdjAA latA * lngA * radian * lng_sign * 1, robinsonAdjBB latA * lat_sign * 1)

/-- Calibration inputs (`_calibrate_projection`). -/
def dublin_raw : ℚ × ℚ := robinson_project (-6.27) 53.34

def tasmania_raw : ℚ × ℚ := robinson_project 146.53 (-42.02)

def svg_width : ℚ := 1800

def svg_height : ℚ := 857

def dublin_target_x : ℚ := 0.53 * svg_width

def dublin_target_y : ℚ := 0.18 * svg_height

def tasmania_target_x : ℚ := 0.97 * svg_width

def tasmania_target_y : ℚ := 0.89 * svg_height

/-- `x_scale = (tasmania_target_x - dublin_target_x) / (tasmania_raw.x -
dublin_raw.x)` — one of the two independent 1-D affine maps. -/
def x_scale : ℚ := (tasmania_target_x - dublin_target_x) / (tasmania_raw.1 - dublin_raw.1)

def x_offset : ℚ := dublin_target_x - dublin_raw.1 * x_scale

def y_scale : ℚ := (tasmania_target_y - dublin_target_y) / (tasmania_raw.2 - dublin_raw.2)

def y_offset : ℚ := dublin_target_y - dublin_raw.2 * y_scale

/-- `SimpleWorldProjection.project(lat, lng)`: calibrated position, rounded
to two decimals (`round(v * 100) / 100`). -/
def project (lat lng : ℚ) : ℚ × ℚ :=
  let robinson := robinson_project lng lat
  let x := robinson.1 * x_scale + x_offset
  let y := robinson.2 * y_scale + y_offset
  ((pyRound (x * 100) : ℚ) / 100, (pyRound (y * 100) : ℚ) / 100)

/-- **C7** After the two-point affine calibration, `project` puts Dublin
within 1 pixel of (53 percent, 18 percent) of the 1800 x 857 canvas and the
Tasmania reference within 1 pixel of (97 percent, 89 percent). -/
theorem project_dublin_eq : project 53.34 (-6.27) = (954, 7713 / 50) := by decide

theorem project_tasmania_eq : project (-42.02) 146.53 = (1746, 76273 / 100) := by decide

theorem C7_projection_calibration :
    |(project 53.34 (-6.27)).1 - 0.53 * 1800| ≤ 1 ∧
    |(project 53.34 (-6.27)).2 - 0.18 * 857| ≤ 1 ∧
    |(project (-42.02) 146.53).1 - 0.97 * 1800| ≤ 1 ∧
    |(project (-42.02) 146.53).2 - 0.89 * 857| ≤ 1 := by
  rw [project_dublin_eq, project_tasmania_eq]
  norm_num

theorem pyAbs_eq_abs (q : ℚ) : pyAbs q = |q| := by
  unfold pyAbs
  split_ifs with h
  · rw [abs_of_neg h]
  · rw [abs_of_nonneg (le_of_not_lt h)]

theorem robinsonLow_eq (q : ℚ) : robinsonLow q = (⌊q / 5⌋ : ℚ) * 5 := by
  unfold robinsonLow
  split_ifs with h
  · rw [h]
    norm_num
  · rfl

theorem pyInt_intCast (k : ℤ) : pyInt (k : ℚ) = k := by
  unfold pyInt
  split_ifs with h
  · exact Int.floor_intCast k
  · rw [← Int.cast_neg, Int.floor_intCast]
    omega

theorem robinsonLowIndex_eq (q : ℚ) : robinsonLowIndex q = pyMin ⌊q / 5⌋ 18 := by
  unfold robinsonLowIndex
  rw [robinsonLow_eq]
  have h5 : ((⌊q / 5⌋ : ℚ) * 5) / 5 = ((⌊q / 5⌋ : ℤ) : ℚ) := by
    rw [mul_div_cancel_right₀ _ (by norm_num : (5 : ℚ) ≠ 0)]
  rw [h5, pyInt_intCast]

theorem robinsonHighIndex_eq (q : ℚ) : robinsonHighIndex q = pyMin (⌊q / 5⌋ + 1) 18 := by
  unfold robinsonHighIndex
  rw [robinsonLow_eq]
  have h5 : ((⌊q / 5⌋ : ℚ) * 5 + 5) / 5 = ((⌊q / 5⌋ + 1 : ℤ) : ℚ) := by
    push_cast
    field_simp
    ring
  rw [h5, pyInt_intCast]

/-- **C10** For every `|lat| ≤ 90` (and every longitude — the longitude
never takes part in the band lookup), the clamped band indices of
`_robinson_project` are nonnegative and at most 18, hence within the
19-entry `AA`/`BB` tables; `lat = 0` takes the `low = 0` band, and at
`|lat| = 90` the clamped indices coincide and the interpolation reduces to
the last table entry. -/
theorem C10_band_lookup_total (lat _lng : ℚ) (hlat : |lat| ≤ 90) :
    (0 ≤ robinsonLowIndex (pyAbs lat) ∧ robinsonLowIndex (pyAbs lat) ≤ 18 ∧
      0 ≤ robinsonHighIndex (pyAbs lat) ∧ robinsonHighIndex (pyAbs lat) ≤ 18) ∧
    ((robinsonLowIndex (pyAbs lat)).toNat < AA.length ∧
      (robinsonHighIndex (pyAbs lat)).toNat < AA.length ∧
      AA.length = 19 ∧ BB.length = 19) ∧
    (lat = 0 → robinsonLow (pyAbs lat) = 0 ∧ robinsonLowIndex (pyAbs lat) = 0) ∧
    (|lat| = 90 →
      robinsonHighIndex (pyAbs lat) = robinsonLowIndex (pyAbs lat) ∧
      robinsonAdjAA (pyAbs lat) = AA.getD 18 0 ∧
      robinsonAdjBB (pyAbs lat) = BB.getD 18 0) := by
  rw [pyAbs_eq_abs]
  have h0 : (0 : ℚ) ≤ |lat| := abs_nonneg lat
  have hfl : (0 : ℤ) ≤ ⌊|lat| / 5⌋ := Int.floor_nonneg.2 (by positivity)
  have hfu : ⌊|lat| / 5⌋ ≤ 18 := by
    have hle : ⌊|lat| / 5⌋ ≤ ⌊(18 : ℚ)⌋ := Int.floor_le_floor (by linarith)
    have h18 : ⌊(18 : ℚ)⌋ = 18 := by norm_num
    omega
  have hA : AA.length = 19 := rfl
  have hB : BB.length = 19 := rfl
  rw [robinsonLowIndex_eq, robinsonHighIndex_eq, hA]
  refine ⟨?_, ?_, ?_, ?_⟩
  · unfold pyMin
    split_ifs <;> omega
  · refine ⟨?_, ?_, rfl, hB⟩ <;> (unfold pyMin; split_ifs <;> omega)
  · intro hz
    subst hz
    constructor
    · simp [robinsonLow]
    · norm_num [pyMin]
  · intro h90
    rw [h90]
    have hf18 : ⌊(90 : ℚ) / 5⌋ = 18 := by norm_num
    have hlow : pyMin ⌊(90 : ℚ) / 5⌋ 18 = 18 := by
      rw [hf18]
      norm_num [pyMin]
    have hhigh : pyMin (⌊(90 : ℚ) / 5⌋ + 1) 18 = 18 := by
      rw [hf18]
      norm_num [pyMin]
    refine ⟨by rw [hlow, hhigh], ?_, ?_⟩
    · unfold robinsonAdjAA robinsonRatio
      rw [robinsonLowIndex_eq, robinsonHighIndex_eq, hlow, hhigh, robinsonLow_eq, hf18]
      norm_num
      rfl
    · unfold robinsonAdjBB robinsonRatio
      rw [robinsonLowIndex_eq, robinsonHighIndex_eq, hlow, hhigh, robinsonLow_eq, hf18]
      norm_num
      rfl

/-- **C10 witness** at the boundary latitude 90. -/
theorem C10_band_lookup_total_witness :
    (0 ≤ robinsonLowIndex (pyAbs 90) ∧ robinsonLowIndex (pyAbs 90) ≤ 18 ∧
      0 ≤ robinsonHighIndex (pyAbs 90) ∧ robinsonHighIndex (pyAbs 90) ≤ 18) ∧
    ((robinsonLowIndex (pyAbs 90)).toNat < AA.length ∧
      (robinsonHighIndex (pyAbs 90)).toNat < AA.length ∧
      AA.length = 19 ∧ BB.length = 19) ∧
    ((90 : ℚ) = 0 → robinsonLow (pyAbs 90) = 0 ∧ robinsonLowIndex (pyAbs 90) = 0) ∧
    (|(90 : ℚ)| = 90 →
      robinsonHighIndex (pyAbs 90) = robinsonLowIndex (pyAbs 90) ∧
      robinsonAdjAA (pyAbs 90) = AA.getD 18 0 ∧
      robinsonAdjBB (pyAbs 90) = BB.getD 18 0) :=
  C10_band_lookup_total 90 0 (by norm_num)

/-! ### `WorldMapGenerator.parse_coordinates` (world_map_generator.py, lines 164-225)

The two regular expressions
`([0-9.]+)(?:°([0-9]+)\\s*([0-9]+))?\\s*[SN]` and its `[EW]` twin are
hand-compiled into a backtracking matcher specialised to this shape: every
greedy `+` and `*` tries the longest character run first and backtracks one
character at a time, the optional group is tried before being skipped, and
the search scans candidate start positions left to right — exactly the
preference order of Python `re.search`. `none` models the `ValueError`
re-raised by the surrounding `except` clause. -/

/-- Python regex class `\\s` (ASCII whitespace). -/
def isSpace (c : Char) : Bool :=
  c = ' ' || c = '\t' || c = '\n' || c = '\r' || c = '\x0b' || c = '\x0c'

/-- Regex class `[0-9.]`. -/
def isDigitDot (c : Char) : Bool :=
  c.isDigit || c = '.'

/-- All ways to split off a (possibly empty) run of `p`-characters, longest
first: the backtracking order of a greedy `*` over the class `p`. -/
def runSplits (p : Char → Bool) (s : List Char) : List (List Char × List Char) :=
  let run := s.takeWhile p
  let rest := s.dropWhile p
  ((List.range (run.length + 1)).reverse).map fun k => (run.take k, run.drop k ++ rest)

/-- Nonempty splits only: the backtracking order of a greedy `+`. -/
def runSplits1 (p : Char → Bool) (s : List Char) : List (List Char × List Char) :=
  (runSplits p s).filter fun pr => !pr.1.isEmpty

/-- Captured groups of one coordinate-regex match: group 1, and groups 2-3
when the optional degree-minute-second group participated. -/
structure ReGroups where
  deg : List Char
  minsec : Option (List Char × List Char)

/-- Trailing `\\s*[c]` of the coordinate pattern, for a cardinal class `card`. -/
def matchTail (card : Char → Bool) (s : List Char) : Bool :=
  (runSplits isSpace s).any fun pr =>
    match pr.2 with
    | c :: _ => card c
    | [] => false

/-- Third capture `([0-9]+)` of the optional group, then the pattern tail. -/
def matchSec (card : Char → Bool) (deg g2 : List Char) (s : List Char) : Option ReGroups :=
  (runSplits1 Char.isDigit s).findSome? fun pr =>
    if matchTail card pr.2 then some ⟨deg, some (g2, pr.1)⟩ else none

/-- Second capture `([0-9]+)` of the optional group followed by `\\s*`. -/
def matchMin (card : Char → Bool) (deg : List Char) (s : List Char) : Option ReGroups :=
  (runSplits1 Char.isDigit s).findSome? fun pr =>
    (runSplits isSpace pr.2).findSome? fun qr => matchSec card deg pr.1 qr.2

/-- The optional group `(?:°([0-9]+)\\s*([0-9]+))?` followed by the pattern
tail: the group is tried first and skipped on failure. -/
def matchOpt (card : Char → Bool) (deg : List Char) (s : List Char) : Option ReGroups :=
  match (match s with
    | '°' :: rest => matchMin card deg rest
    | _ => none) with
  | some g => some g
  | none => if matchTail card s then some ⟨deg, none⟩ else none

/-- First capture `([0-9.]+)` anchored at the current position, then the rest
of the pattern. -/
def matchCoordAt (card : Char → Bool) (s : List Char) : Option ReGroups :=
  (runSplits1 isDigitDot s).findSome? fun pr => matchOpt card pr.1 pr.2

/-- Python `re.search`: the leftmost start position with a match wins. -/
def reSearch (card : Char → Bool) : List Char → Option ReGroups
  | [] => none
  | c :: rest =>
    match matchCoordAt card (c :: rest) with
    | some g => some g
    | none => reSearch card rest

/-- Cardinal class `[SN]` of the latitude pattern. -/
def latCard (c : Char) : Bool := c = 'S' || c = 'N'

/-- Cardinal class `[EW]` of the longitude pattern. -/
def lonCard (c : Char) : Bool := c = 'E' || c = 'W'

/-- Value of a nonempty digit string. -/
def digitsToNat (l : List Char) : Nat :=
  l.foldl (fun a c => 10 * a + (c.toNat - 48)) 0

/-- Python `float` on the dot-split pieces of the input: an optional integer
part, at most one dot, an optional fractional part, at least one digit in
total; anything else raises `ValueError` (`none`). -/
def parseFloatAux : List (List Char) → Option ℚ
  | [ip] =>
    if ip.isEmpty || !ip.all Char.isDigit then none
    else some (digitsToNat ip)
  | [ip, fp] =>
    if (ip.isEmpty && fp.isEmpty) || !ip.all Char.isDigit || !fp.all Char.isDigit then none
    else some ((digitsToNat ip : ℚ) + (digitsToNat fp : ℚ) / (10 : ℚ) ^ fp.length)
  | _ => none

/-- Python `float` restricted to the strings reachable here (digits and dots;
a sign never reaches `float` in `parse_coordinates`). -/
def parseFloat (l : List Char) : Option ℚ :=
  parseFloatAux (l.splitOn '.')

/-- Lines 208-209 / 216-217: `float(group(2)) if group(2) else 0` and the same
for group 3 — the minute and second values of one match. -/
def msVal : Option (List Char × List Char) → ℚ × ℚ
  | some (m2, m3) => ((digitsToNat m2 : ℚ), (digitsToNat m3 : ℚ))
  | none => (0, 0)

/-- Line 173: drop `″` and turn `′` into a space. -/
def preprocess (s : String) : List Char :=
  (s.toList.filter (fun c => c ≠ '″')).map fun c => if c = '′' then ' ' else c

/-- Fallback latitude piece (lines 187-193): strip a trailing `N`/`S`,
negating for `S`. -/
def parseLatPart (l : List Char) : Option ℚ :=
  match l.getLast? with
  | some 'N' => parseFloat l.dropLast
  | some 'S' => (parseFloat l.dropLast).map (fun q => -q)
  | _ => parseFloat l

/-- Fallback longitude piece (lines 196-202): strip a trailing `E`/`W`,
negating for `W`. -/
def parseLonPart (l : List Char) : Option ℚ :=
  match l.getLast? with
  | some 'E' => parseFloat l.dropLast
  | some 'W' => (parseFloat l.dropLast).map (fun q => -q)
  | _ => parseFloat l

/-- `WorldMapGenerator.parse_coordinates` (lines 164-225): try both regex
searches; on a double hit assemble degrees + minutes/60 + seconds/3600 with
the sign taken from an `S` (resp. `W`) anywhere in the uppercased string;
otherwise fall back to comma-split decimal parsing with trailing cardinal
letters. -/
def parse_coordinates (s : String) : Option (ℚ × ℚ) :=
  let cs := preprocess s
  match reSearch latCard cs, reSearch lonCard cs with
  | some latm, some lonm =>
    match parseFloat latm.deg, parseFloat lonm.deg with
    | some latDeg, some lonDeg =>
      let latMS := msVal latm.minsec
      let lonMS := msVal lonm.minsec
      let lat0 := latDeg + latMS.1 / 60 + latMS.2 / 3600
      let lat := if cs.any (fun c => c.toUpper = 'S') then -lat0 else lat0
      let lon0 := lonDeg + lonMS.1 / 60 + lonMS.2 / 3600
      let lon := if cs.any (fun c => c.toUpper = 'W') then -lon0 else lon0
      some (lat, lon)
    | _, _ => none
  | _, _ =>
    let parts := ((cs.filter fun c => c ≠ '°').filter fun c => c ≠ ' ').splitOn ','
    match parts with
    | [latStr, lonStr] =>
      match parseLatPart latStr, parseLonPart lonStr with
      | some lat, some lon => some (lat, lon)
      | _, _ => none
    | _ => none

/-- Every value `float` can produce here is nonnegative (the strings hold only
digits and dots). -/
theorem parseFloatAux_nonneg (ls : List (List Char)) (q : ℚ)
    (h : parseFloatAux ls = some q) : 0 ≤ q := by
  rcases ls with _ | ⟨ip, _ | ⟨fp, _ | _⟩⟩
  · exact Option.noConfusion h
  · rw [parseFloatAux] at h
    split_ifs at h
    rw [← Option.some.inj h]
    positivity
  · rw [parseFloatAux] at h
    split_ifs at h
    rw [← Option.some.inj h]
    positivity
  · exact Option.noConfusion h

/-- `parseFloat` never returns a negative value. -/
theorem parseFloat_nonneg (l : List Char) (q : ℚ) (h : parseFloat l = some q) : 0 ≤ q :=
  parseFloatAux_nonneg _ q h

/-- The minute value of a match is nonnegative. -/
theorem msVal_fst_nonneg (o : Option (List Char × List Char)) : 0 ≤ (msVal o).1 := by
  rcases o with _ | ⟨m2, m3⟩ <;> simp [msVal]

/-- The second value of a match is nonnegative. -/
theorem msVal_snd_nonneg (o : Option (List Char × List Char)) : 0 ≤ (msVal o).2 := by
  rcases o with _ | ⟨m2, m3⟩ <;> simp [msVal]

/-- Sign normalization of the degree-minute-second branch: when both regex
searches succeed, an `S` in the (uppercased) input forces a nonpositive
latitude and a `W` a nonpositive longitude. -/
theorem dms_sign_normalization (s : String) (la lo : ℚ)
    (hlat : (reSearch latCard (preprocess s)).isSome = true)
    (hlon : (reSearch lonCard (preprocess s)).isSome = true)
    (hp : parse_coordinates s = some (la, lo)) :
    ((preprocess s).any (fun c => c.toUpper = 'S') = true → la ≤ 0) ∧
    ((preprocess s).any (fun c => c.toUpper = 'W') = true → lo ≤ 0) := by
  obtain ⟨latm, hm1⟩ := Option.isSome_iff_exists.mp hlat
  obtain ⟨lonm, hm2⟩ := Option.isSome_iff_exists.mp hlon
  rcases hlf : parseFloat latm.deg with _ | latDeg
  · simp [parse_coordinates, hm1, hm2, hlf] at hp
  rcases hgf : parseFloat lonm.deg with _ | lonDeg
  · simp [parse_coordinates, hm1, hm2, hlf, hgf] at hp
  simp only [parse_coordinates, hm1, hm2, hlf, hgf, Option.some.injEq, Prod.mk.injEq] at hp
  obtain ⟨hla, hlo⟩ := hp
  have h0lat : 0 ≤ latDeg := parseFloat_nonneg _ _ hlf
  have h0lon : 0 ≤ lonDeg := parseFloat_nonneg _ _ hgf
  have hb1 := msVal_fst_nonneg latm.minsec
  have hc1 := msVal_snd_nonneg latm.minsec
  have hb2 := msVal_fst_nonneg lonm.minsec
  have hc2 := msVal_snd_nonneg lonm.minsec
  constructor
  · intro hS
    rw [if_pos hS] at hla
    rw [← hla]
    have d1 := div_nonneg hb1 (by norm_num : (0:ℚ) ≤ 60)
    have d2 := div_nonneg hc1 (by norm_num : (0:ℚ) ≤ 3600)
    linarith
  · intro hW
    rw [if_pos hW] at hlo
    rw [← hlo]
    have d1 := div_nonneg hb2 (by norm_num : (0:ℚ) ≤ 60)
    have d2 := div_nonneg hc2 (by norm_num : (0:ℚ) ≤ 3600)
    linarith

/-- C6: `parse_coordinates` sign-normalizes cardinal letters — in the
degree-minute-second branch the latitude is negated exactly when an `S` is
present and the longitude when a `W` is present, so those results are never
positive — and on the two documented input families it returns: for
`"4.25°S, 79.23°W"` a latitude within 1e-6 of −4.25 and a longitude within
1e-6 of −79.23 (via the decimal fallback, since neither regex matches that
string), and for `"8°017′03″S 115°035′021″E"` a latitude strictly between
−9 and −8 and a longitude strictly between 115 and 116, with no error in
either case. -/
theorem C6_parse_coordinates_families :
    (∀ s : String, ∀ la lo : ℚ,
      (reSearch latCard (preprocess s)).isSome = true →
      (reSearch lonCard (preprocess s)).isSome = true →
      parse_coordinates s = some (la, lo) →
      ((preprocess s).any (fun c => c.toUpper = 'S') = true → la ≤ 0) ∧
      ((preprocess s).any (fun c => c.toUpper = 'W') = true → lo ≤ 0)) ∧
    (∃ la lo : ℚ, parse_coordinates ("4.25°S, 79.23°W") = some (la, lo) ∧
      |la - (-(425/100))| ≤ 1/1000000 ∧ |lo - (-(7923/100))| ≤ 1/1000000) ∧
    (∃ la lo : ℚ, parse_coordinates ("8°017′03″S 115°035′021″E") = some (la, lo) ∧
      -9 < la ∧ la < -8 ∧ 115 < lo ∧ lo < 116) := by
  refine ⟨fun s la lo h1 h2 h3 => dms_sign_normalization s la lo h1 h2 h3,
    ⟨-(425/100), -(7923/100), by decide, by norm_num, by norm_num⟩,
    ⟨-(9941/1200), 138707/1200, by decide, by norm_num, by norm_num, by norm_num, by norm_num⟩⟩

/-- C6 witness: the sign-normalization part applied to the concrete input
`"8°017′03″S 115°035′021″W"`, whose degree-minute-second parse negates both
components. -/
theorem C6_parse_coordinates_families_witness :
    (-(9941/1200) : ℚ) ≤ 0 ∧ (-(138707/1200) : ℚ) ≤ 0 := by
  have h := C6_parse_coordinates_families.1 ("8°017′03″S 115°035′021″W")
    (-(9941/1200)) (-(138707/1200)) (by decide) (by decide) (by decide)
  exact ⟨h.1 (by decide), h.2 (by decide)⟩

end Cal
